import Mathlib

/-!
Verification development for `HybridOptimizer.cc` (hybrid Levenberg-Marquardt /
BFGS nonlinear least-squares optimizer).

The C++ engine works on `double` scalars and Eigen dense matrices.  We embed it
in exact real arithmetic over `ℚ`:

* vectors are `Fin k → ℚ`, matrices are `Matrix (Fin m) (Fin n) ℚ`;
* `QNew` lives in `WithTop ℚ`, with `⊤` standing for the
  `std::numeric_limits<double>::infinity()` written to it on an INVALID step;
* the Euclidean norm uses `ratSqrt`, which returns the exact square root on
  rationals whose numerator and denominator are perfect squares (every concrete
  trace in this file only takes norms of such values); no theorem below depends
  on the value of `ratSqrt` on other inputs;
* decimal double literals of the source (`0.02`, `1.0/3.0`, ...) are modelled
  by the exact rationals they denote in the mathematical formulas;
* `sqrt(eps_machine) = sqrt(2^-52) = 2^-26` is exactly representable;
* the IEEE behaviour of the `!(x > threshold)` guards in the presence of NaN
  and infinities is modelled separately by the `Flt` scalar type below.

The LDLT / self-adjoint-eigensolver factorizations are Eigen library calls; the
step engine receives the resulting solve `M h = -g` as an explicit function
argument (`LinSolver`), and the eigen-mode deflation arithmetic of
`HybridOptimizer::Impl::solve` is modelled concretely by `solveEig`, taking the
eigensolver output (ascending eigenvalues, orthonormal eigenvectors) as input.
-/

namespace HybridShapelet

open Matrix

abbrev Vec (n : ℕ) := Fin n → ℚ

abbrev Mat (m n : ℕ) := Matrix (Fin m) (Fin n) ℚ

/-- Integer square root by bounded search; exact on perfect squares
(the only use sites in this file). -/
def isqrt (n : ℕ) : ℕ :=
  (List.range (n + 1)).foldr (fun k acc => if k * k ≤ n then max k acc else acc) 0

/-- Model of the real square root on `ℚ`: exact whenever the numerator and
denominator are perfect squares (all concrete traces below arrange this).
No theorem in this file depends on its values elsewhere. -/
def ratSqrt (q : ℚ) : ℚ :=
  (isqrt q.num.toNat : ℚ) / (isqrt q.den : ℚ)

/-- Embedding of `v.norm()` — Euclidean norm (exact on the traces used here). -/
def norm2 {k : ℕ} (v : Vec k) : ℚ := ratSqrt (v ⬝ᵥ v)

/-- Embedding of `v.squaredNorm()`. -/
def sqnorm {k : ℕ} (v : Vec k) : ℚ := v ⬝ᵥ v

/-- Embedding of `v.lpNorm<Eigen::Infinity>()`. -/
def normInf {k : ℕ} (v : Vec k) : ℚ :=
  (List.ofFn fun i => |v i|).foldr max 0

/-- Embedding of `M.diagonal().array() += c`. -/
def addDiag {n : ℕ} (M : Mat n n) (c : ℚ) : Mat n n := M + c • (1 : Mat n n)

/-- Embedding of `std::sqrt(std::numeric_limits<double>::epsilon())`, exactly `2^-26`. -/
def sqrtEps : ℚ := 1 / 2 ^ 26

/-- Finite value extraction from `WithTop ℚ`; only applied on branches where
the source has established `QNew < Q`, hence finiteness. -/
def wval (x : WithTop ℚ) : ℚ := x.untop' 0

/-- Embedding of `HybridOptimizer::MethodEnum`. -/
inductive MethodEnum where
  | LM
  | BFGS
deriving DecidableEq, Repr

/-- Embedding of `Objective::StepResult`; `INVALID` is the zero (falsy) value, per the
`if (doStep)` test in the source. -/
inductive StepResult where
  | INVALID
  | VALID
  | MODIFIED
deriving DecidableEq, Repr

/-- The state bitmask of `HybridOptimizer::StateFlags`, with one Boolean per
flag bit (the bits are distinct powers of two in the header; `|=` becomes
setting a field to `true`, `&= ~...` becomes setting fields to `false`). -/
structure StateFlags where
  stepAccepted : Bool := false
  stepModified : Bool := false
  stepInvalid : Bool := false
  successFtol : Bool := false
  successGtol : Bool := false
  failureMinstep : Bool := false
  failureMintrust : Bool := false
  failureMaxiter : Bool := false
deriving DecidableEq, Repr

/-- The two flags passed to `checkStep` as its `bad` argument. -/
inductive TermFlag where
  | FAILURE_MINSTEP
  | FAILURE_MINTRUST
deriving DecidableEq, Repr

/-- Embedding of `state |= bad`. -/
def orFlag (st : StateFlags) : TermFlag → StateFlags
  | .FAILURE_MINSTEP => { st with failureMinstep := true }
  | .FAILURE_MINTRUST => { st with failureMintrust := true }

/-- Embedding of `HybridOptimizerControl` (the fields the engine reads). -/
structure Control where
  fTol : ℚ
  gTol : ℚ
  minStep : ℚ
  delta0 : ℚ
  tau : ℚ
  maxIter : ℕ
  useCholesky : Bool
deriving DecidableEq, Repr

/-- The `Objective` adapter: residual evaluation, Jacobian evaluation, and the
step-vetting callback.  `tryStep` receives `(x, xNew)` and returns its verdict
together with the (possibly overwritten) `xNew` buffer. -/
structure Objective (n m : ℕ) where
  computeFunction : Vec n → Vec m
  computeDerivative : Vec n → Vec m → Mat m n
  tryStep : Vec n → Vec n → StepResult × Vec n

/-- The members of `HybridOptimizer::Impl` (minus the held objective pointer,
which is passed to `step`/`run` explicitly, and the factorization scratch). -/
structure OptState (n m : ℕ) where
  ctrl : Control
  method : MethodEnum
  state : StateFlags
  count : ℤ
  x : Vec n
  xNew : Vec n
  f : Vec m
  fNew : Vec m
  J : Mat m n
  JNew : Mat m n
  h : Vec n
  y : Vec n
  v : Vec n
  A : Mat n n
  B : Mat n n
  g : Vec n
  gNew : Vec n
  normInfF : ℚ
  normInfG : ℚ
  Q : ℚ
  QNew : WithTop ℚ
  mu : ℚ
  nu : ℚ
  delta : ℚ
deriving DecidableEq

/-- How a `step()` call exited: through one of the early `return`s or by
running to the end of the function body. -/
inductive StepExit where
  | minstep1
  | minstep2
  | mintrust
  | noeval
  | completed
deriving DecidableEq, Repr

/-- The library factorization (`Eigen::LDLT` or the truncated
eigendecomposition): given the system matrix and `g`, returns the solution `h`
of `M h = -g` as computed by `HybridOptimizer::Impl::solve`.  Modelled as an
explicit function argument; its eigen-mode arithmetic is `solveEig` below. -/
abbrev LinSolver (n : ℕ) := Mat n n → Vec n → Vec n

/-- Embedding of `HybridOptimizer::Impl::checkStep`. -/
def checkStep {n m : ℕ} (s : OptState n m) (stepNorm : ℚ) (bad : TermFlag) :
    OptState n m × Bool :=
  if ¬ (stepNorm > s.ctrl.minStep * (norm2 s.x + s.ctrl.minStep)) then
    ({ s with state := orFlag s.state bad }, false)
  else
    (s, true)

/-- The rank-2 BFGS update of lines 224-227 (`v = B h`, `hv = hᵀv`,
`B -= v vᵀ / hv`, `B += y yᵀ / hᵀy`), on the symmetric matrix represented by
the `selfadjointView`. -/
def bfgsUpdate {n : ℕ} (B : Mat n n) (h y : Vec n) : Mat n n :=
  let v := B *ᵥ h
  let hv := h ⬝ᵥ v
  let hy := h ⬝ᵥ y
  B - (1 / hv) • vecMulVec v v + (1 / hy) • vecMulVec y y

/-- Line 221: `y = JNewᵀ(JNew h) + (gNew - g)`. -/
def updateY {n m : ℕ} (s : OptState n m) : OptState n m :=
  { s with y := s.JNewᵀ *ᵥ (s.JNew *ᵥ s.h) + (s.gNew - s.g) }

/-- Lines 222-228: the curvature test `hᵀy > 0` and the rank-2 update of
`B` (also stores the scratch vector `v`). -/
def updateB {n m : ℕ} (s : OptState n m) : OptState n m :=
  if s.h ⬝ᵥ s.y > 0 then
    { s with v := s.B *ᵥ s.h, B := bfgsUpdate s.B s.h s.y }
  else s

/-- Lines 231-237: the assignments committed on an accepted step. -/
def commitVals {n m : ℕ} (s : OptState n m) (normInfGNew : ℚ) : OptState n m :=
  { s with x := s.xNew, f := s.fNew, Q := wval s.QNew,
           J := s.JNew, g := s.gNew,
           normInfF := normInf s.fNew, normInfG := normInfGNew }

/-- Lines 238-240: `if (!(normInfF > fTol)) state |= SUCCESS_FTOL` (NaN-safe
`!(x > tol)` polarity). -/
def ftolFlag {n m : ℕ} (s : OptState n m) : OptState n m :=
  if ¬ (s.normInfF > s.ctrl.fTol) then
    { s with state := { s.state with successFtol := true } }
  else s

/-- Lines 241-243: `if (!(normInfG > gTol)) state |= SUCCESS_GTOL`. -/
def gtolFlag {n m : ℕ} (s : OptState n m) : OptState n m :=
  if ¬ (s.normInfG > s.ctrl.gTol) then
    { s with state := { s.state with successGtol := true } }
  else s

/-- Lines 230-244: the commit on acceptance, with the `fTol` / `gTol`
convergence tests. -/
def commitPhase {n m : ℕ} (s : OptState n m) (normInfGNew : ℚ)
    (isBetter : Bool) : OptState n m :=
  if isBetter then gtolFlag (ftolFlag (commitVals s normInfGNew)) else s

/-- Lines 246-256: the method switch (BFGS→LM rebuilds `A`, LM→BFGS
initialises `δ`). -/
def switchPhase {n m : ℕ} (s : OptState n m) (normH : ℚ)
    (shouldSwitchMethod : Bool) : OptState n m :=
  if shouldSwitchMethod then
    match s.method with
    | .BFGS =>
        { s with A := addDiag (s.Jᵀ * s.J) s.mu, method := .LM }
    | .LM =>
        { s with delta := max (3 / 2 * s.ctrl.minStep * (sqnorm s.f + s.ctrl.minStep))
                              (1 / 5 * normH),
                 method := .BFGS }
  else s

/-- Lines 258-262: `STEP_ACCEPTED` iff `isBetter`. -/
def acceptFlag {n m : ℕ} (s : OptState n m) (isBetter : Bool) : OptState n m :=
  if isBetter then { s with state := { s.state with stepAccepted := true } }
  else { s with state := { s.state with stepAccepted := false } }

/-- Lines 219-262 of `step()`: everything after the method-specific branch
(the early `return` on `!doStep`, the BFGS matrix update, the commit on
acceptance, the method switch, and the `STEP_ACCEPTED` bookkeeping). -/
def stepFinish {n m : ℕ} (s0 : OptState n m) (normH normInfGNew : ℚ)
    (doStep isBetter shouldSwitchMethod : Bool) :
    OptState n m × StepExit × Bool :=
  if !doStep then (s0, .noeval, isBetter) else
  (acceptFlag
    (switchPhase (commitPhase (updateB (updateY s0)) normInfGNew isBetter)
      normH shouldSwitchMethod)
    isBetter, .completed, isBetter)

/-- Lines 168-173: evaluate `fNew`, `QNew`, `JNew` at the proposal (only when
`doStep` is truthy, i.e. the proposal was not `INVALID`). -/
def evalPhase {n m : ℕ} (obj : Objective n m) (s0 : OptState n m)
    (doStep : Bool) : OptState n m :=
  if doStep then
    { s0 with fNew := obj.computeFunction s0.xNew,
              QNew := ((1 / 2 * sqnorm (obj.computeFunction s0.xNew) : ℚ) : WithTop ℚ),
              JNew := obj.computeDerivative s0.xNew (obj.computeFunction s0.xNew) }
  else s0

/-- The condition of lines 176-179 guarding the trial gradient. -/
def gradCond {n m : ℕ} (s : OptState n m) (doStep : Bool) : Bool :=
  doStep && (s.method == .BFGS || decide (s.QNew < (s.Q : WithTop ℚ)))

/-- Lines 176-179: store the trial gradient `gNew = JNewᵀ fNew` when the
guard holds. -/
def gnewPhase {n m : ℕ} (s : OptState n m) (gcond : Bool) : OptState n m :=
  if gcond then { s with gNew := s.JNewᵀ *ᵥ s.fNew } else s

/-- The local `normInfGNew` (`0.0` unless the trial gradient was computed). -/
def ngVal {n m : ℕ} (s : OptState n m) (gcond : Bool) : ℚ :=
  if gcond then normInf (s.JNewᵀ *ᵥ s.fNew) else 0

/-- The gain-ratio `rho` of the BFGS branch (line 185). -/
def bfgsRho {n m : ℕ} (s : OptState n m) : ℚ :=
  (s.Q - wval s.QNew) / (-(s.h ⬝ᵥ s.g - 1 / 2 * sqnorm (s.J *ᵥ s.h)))

/-- Lines 184-195: the BFGS trust-radius update; returns the updated state and
whether the `checkStep(delta, FAILURE_MINTRUST)` guard passed. -/
def bfgsDelta {n m : ℕ} (s : OptState n m) (normH : ℚ) : OptState n m × Bool :=
  if s.QNew < (s.Q : WithTop ℚ) then
    if bfgsRho s > 3 / 4 then
      ({ s with delta := max s.delta (3 * normH) }, true)
    else if bfgsRho s < 1 / 4 then
      checkStep { s with delta := s.delta / 2 } (s.delta / 2) .FAILURE_MINTRUST
    else (s, true)
  else
    checkStep { s with delta := s.delta / 2 } (s.delta / 2) .FAILURE_MINTRUST

/-- The `isBetter` test of the BFGS branch (line 182). -/
def bfgsBetter {n m : ℕ} (s : OptState n m) (normInfGNew : ℚ) : Bool :=
  decide (s.QNew < (s.Q : WithTop ℚ)) ||
    (decide (s.QNew ≤ (((1 + sqrtEps) * s.Q : ℚ) : WithTop ℚ)) &&
     decide (normInfGNew < s.normInfG))

/-- The gain-ratio `rho` of the LM branch (line 199). -/
def lmRho {n m : ℕ} (s : OptState n m) : ℚ :=
  (s.Q - wval s.QNew) / (-(1 / 2) * (s.h ⬝ᵥ (s.g - s.mu • s.h)))

/-- The damping factor applied to `mu` on an accepted LM step (line 200). -/
def lmMu {n m : ℕ} (s : OptState n m) : ℚ :=
  s.mu * max (1 / 3) (1 - (2 * lmRho s - 1) ^ 3)

/-- The near-linearity counter after an accepted LM step (lines 202-206). -/
def lmCnt {n m : ℕ} (s : OptState n m) (normInfGNew : ℚ) : ℤ :=
  if min normInfGNew (s.Q - wval s.QNew) < 2 / 100 * wval s.QNew then
    s.count + 1
  else 0

/-- Lines 197-211: the accepted-LM-step damping / near-linearity bookkeeping;
returns the updated state and the local `shouldSwitchMethod` (which the source
sets exactly when the incremented counter hits 3).  `A` is rebuilt from `JNew`
with the updated `mu` unless the counter is 3. -/
def lmAccept {n m : ℕ} (s : OptState n m) (normInfGNew : ℚ) :
    OptState n m × Bool :=
  (if lmCnt s normInfGNew ≠ 3 then
    { s with mu := lmMu s, nu := 2, count := lmCnt s normInfGNew,
             A := addDiag (s.JNewᵀ * s.JNew) (lmMu s) }
  else
    { s with mu := lmMu s, nu := 2, count := lmCnt s normInfGNew },
  lmCnt s normInfGNew == 3)

/-- Lines 212-217: the rejected-LM-step damping bump (`A`'s diagonal gets
`μ(ν-1)` before `μ` and `ν` grow). -/
def lmReject {n m : ℕ} (s : OptState n m) : OptState n m :=
  { s with A := addDiag s.A (s.mu * (s.nu - 1)),
           mu := s.mu * s.nu, nu := s.nu * 2 }

/-- The state entering the method-specific branch: evaluation plus trial
gradient (lines 167-179). -/
def preEval {n m : ℕ} (obj : Objective n m) (s0 : OptState n m)
    (doStep : Bool) : OptState n m :=
  gnewPhase (evalPhase obj s0 doStep) (gradCond (evalPhase obj s0 doStep) doStep)

/-- The local `normInfGNew` as computed from the inputs of `stepEval`. -/
def preNg {n m : ℕ} (obj : Objective n m) (s0 : OptState n m)
    (doStep : Bool) : ℚ :=
  ngVal (evalPhase obj s0 doStep) (gradCond (evalPhase obj s0 doStep) doStep)

/-- Lines 181-262, on the post-evaluation state `s` and the local
`normInfGNew`: the method branch, then `stepFinish`. -/
def stepEval2 {n m : ℕ} (s : OptState n m) (normInfGNew normH : ℚ)
    (doStep : Bool) : OptState n m × StepExit × Bool :=
  match s.method with
  | .BFGS =>
    if (bfgsDelta s normH).2 = false then
      ((bfgsDelta s normH).1, .mintrust, bfgsBetter s normInfGNew)
    else
      stepFinish (bfgsDelta s normH).1 normH normInfGNew doStep
        (bfgsBetter s normInfGNew) (decide (normInfGNew ≥ s.normInfG))
  | .LM =>
    if s.QNew < (s.Q : WithTop ℚ) then
      stepFinish (lmAccept s normInfGNew).1 normH normInfGNew doStep true
        (lmAccept s normInfGNew).2
    else
      stepFinish (lmReject s) normH normInfGNew doStep false
        (decide ((lmReject s).nu ≥ 32))

/-- Lines 167-218 of `step()`: evaluation of the proposal, the trial gradient,
and the method-specific acceptance / trust-region / damping logic. -/
def stepEval {n m : ℕ} (obj : Objective n m) (s0 : OptState n m)
    (normH : ℚ) (doStep : Bool) : OptState n m × StepExit × Bool :=
  stepEval2 (preEval obj s0 doStep) (preNg obj s0 doStep) normH doStep

/-- Lines 131-140: run the solver on `A` (LM) or `B` (BFGS), storing `h`. -/
def solvedState {n m : ℕ} (solve : LinSolver n) (s0 : OptState n m) :
    OptState n m :=
  { s0 with
    h := solve (match s0.method with | .LM => s0.A | .BFGS => s0.B) s0.g }

/-- Line 142: BFGS trust-region clipping `h *= delta / normH` (note the
source does not refresh the local `normH` after clipping). -/
def clipState {n m : ℕ} (s : OptState n m) (normH : ℚ) : OptState n m :=
  if s.method == .BFGS && normH > s.delta then
    { s with h := (s.delta / normH) • s.h }
  else s

/-- Lines 152-154: the `MODIFIED` bookkeeping — flag the step and recompute
`h = xNew - x` from the overwritten proposal. -/
def modState {n m : ℕ} (s : OptState n m) : OptState n m :=
  { s with state := { s.state with stepModified := true },
           h := s.xNew - s.x }

/-- Lines 162-163: the `INVALID` bookkeeping — flag the step and pretend
`QNew = +∞`. -/
def invState {n m : ℕ} (s : OptState n m) : OptState n m :=
  { s with state := { s.state with stepInvalid := true },
           QNew := (⊤ : WithTop ℚ) }

/-- Line 165: the `VALID` bookkeeping — clear both transient step flags. -/
def validState {n m : ℕ} (s : OptState n m) : OptState n m :=
  { s with state :=
      { s.state with stepModified := false, stepInvalid := false } }

/-- Lines 148-166 and onward: dispatch on the `tryStep` verdict, on the state
`s` whose `xNew` holds the (possibly overwritten) proposal. -/
def vetPhase {n m : ℕ} (obj : Objective n m) (s : OptState n m)
    (normH : ℚ) (k : StepResult) : OptState n m × StepExit × Bool :=
  match k with
  | .MODIFIED =>
    if (checkStep (modState s) (norm2 (modState s).h) .FAILURE_MINSTEP).2
        = false then
      ((checkStep (modState s) (norm2 (modState s).h) .FAILURE_MINSTEP).1,
       .minstep2, false)
    else
      stepEval obj (modState s) (norm2 (modState s).h) true
  | .INVALID =>
    stepEval obj (invState s) normH false
  | .VALID =>
    stepEval obj (validState s) normH true

/-- Lines 143-147: the proposal `xNew = x + h` handed to `tryStep`. -/
def proposed {n m : ℕ} (s : OptState n m) : OptState n m :=
  { s with xNew := s.x + s.h }

/-- Line 147: the verdict and buffer content returned by `tryStep` on the
proposal. -/
def vetVerdict {n m : ℕ} (obj : Objective n m) (s : OptState n m) :
    StepResult × Vec n :=
  obj.tryStep (proposed s).x (proposed s).xNew

/-- The state entering the verdict dispatch: proposal made, `xNew` as
`tryStep` left it. -/
def vetInput {n m : ℕ} (obj : Objective n m) (s : OptState n m) :
    OptState n m :=
  { proposed s with xNew := (vetVerdict obj s).2 }

/-- Embedding of `HybridOptimizer::Impl::step`, instrumented with the exit point and the
final value of the local `isBetter`; `step` below projects out the state. -/
def stepTrace {n m : ℕ} (obj : Objective n m) (solve : LinSolver n)
    (s0 : OptState n m) : OptState n m × StepExit × Bool :=
  if (checkStep (solvedState solve s0) (norm2 (solvedState solve s0).h)
      .FAILURE_MINSTEP).2 = false then
    ((checkStep (solvedState solve s0) (norm2 (solvedState solve s0).h)
      .FAILURE_MINSTEP).1, .minstep1, false)
  else
    vetPhase obj
      (vetInput obj (clipState (solvedState solve s0) (norm2 (solvedState solve s0).h)))
      (norm2 (solvedState solve s0).h)
      (vetVerdict obj (clipState (solvedState solve s0) (norm2 (solvedState solve s0).h))).1

/-- Embedding of `HybridOptimizer::Impl::step` (the state after one call). -/
def step {n m : ℕ} (obj : Objective n m) (solve : LinSolver n)
    (s0 : OptState n m) : OptState n m :=
  (stepTrace obj solve s0).1

/-- Embedding of `HybridOptimizer::Impl::Impl` — the constructor. -/
def init {n m : ℕ} (obj : Objective n m) (ctrl : Control)
    (parameters : Vec n) : OptState n m :=
  let fNew := obj.computeFunction parameters
  let f := fNew
  let Q := 1 / 2 * sqnorm f
  let JNew := obj.computeDerivative parameters fNew
  let J := JNew
  let A0 := Jᵀ * J
  let g := Jᵀ *ᵥ f
  let mu := ctrl.tau * normInf (fun i => A0 i i)
  { ctrl := ctrl
    method := .LM
    state := {}
    count := 0
    x := parameters
    xNew := parameters
    f := f
    fNew := fNew
    J := J
    JNew := JNew
    h := 0
    y := 0
    v := 0
    A := addDiag A0 mu
    B := 1
    g := g
    gNew := 0
    normInfF := normInf f
    normInfG := normInf g
    Q := Q
    QNew := (Q : WithTop ℚ)
    mu := mu
    nu := 2
    delta := ctrl.delta0 }

/-- The `FINISHED` mask test of `run()`. -/
def FINISHED (st : StateFlags) : Bool :=
  st.successFtol || st.successGtol || st.failureMinstep ||
  st.failureMintrust || st.failureMaxiter

/-- The loop body of `HybridOptimizer::run`, on the remaining iteration
budget. -/
def runAux {n m : ℕ} (obj : Objective n m) (solve : LinSolver n) :
    ℕ → OptState n m → OptState n m
  | 0, s => { s with state := { s.state with failureMaxiter := true } }
  | k + 1, s =>
    let s' := step obj solve s
    if FINISHED s'.state then s' else runAux obj solve k s'

/-- Embedding of `HybridOptimizer::run`. -/
def run {n m : ℕ} (obj : Objective n m) (solve : LinSolver n)
    (s : OptState n m) : OptState n m :=
  runAux obj solve s.ctrl.maxIter s

/-! ### Concrete instances used by counterexamples and witnesses

One-parameter, one-residual problems.  For `n = 1` the `LDLT` solve of the
source is the exact scalar division `h = -g / M`, so `solveExact1` is a
faithful rendering of the `useCholesky` mode at this size. -/

/-- Exact `M h = -g` solve for 1×1 systems (`Eigen::LDLT` at `n = 1`). -/
def solveExact1 : LinSolver 1 := fun M g i => -(g i) / M i i

/-- A solver stub returning a constant step (stands for a factorization whose
output we pin down; the engine treats `h` opaquely). -/
def solveConst (c : ℚ) : LinSolver 1 := fun _ _ _ => c

/-- Objective `f(x) = x - 2` with exact Jacobian `J = 1`, always-`VALID`
steps. -/
def objLine : Objective 1 1 where
  computeFunction x := fun _ => x 0 - 2
  computeDerivative _ _ := fun _ _ => 1
  tryStep _ xNew := (.VALID, xNew)

/-- Same residual as `objLine` but `tryStep` always returns `INVALID`. -/
def objLineInvalid : Objective 1 1 where
  computeFunction x := fun _ => x 0 - 2
  computeDerivative _ _ := fun _ _ => 1
  tryStep _ xNew := (.INVALID, xNew)

/-- Objective `f(x) = x`, `J = 1`, always-`VALID`: every positive step from
`x = 1` is rejected. -/
def objId : Objective 1 1 where
  computeFunction x := fun _ => x 0
  computeDerivative _ _ := fun _ _ => 1
  tryStep _ xNew := (.VALID, xNew)

/-- Objective with `f(10) = 1` and `f = 10` elsewhere, `J = 1`: rejections at
`x = 10` with a gradient sign that satisfies the curvature condition. -/
def objStuck : Objective 1 1 where
  computeFunction x := fun _ => if x 0 = 10 then 1 else 10
  computeDerivative _ _ := fun _ _ => 1
  tryStep _ xNew := (.VALID, xNew)

/-- Here `tryStep` clamps to `1/2` when called at `x = 0`, `INVALID` afterwards
(used to leave both `STEP_MODIFIED` and `STEP_INVALID` set). -/
def objModThenInvalid : Objective 1 1 where
  computeFunction x := fun _ => x 0 - 2
  computeDerivative _ _ := fun _ _ => 1
  tryStep x xNew := if x 0 = 0 then (.MODIFIED, fun _ => 1 / 2) else (.INVALID, xNew)

/-- A generic control block for the concrete traces. -/
def ctrlA : Control :=
  { fTol := 1 / 1000000, gTol := 1 / 1000000, minStep := 1 / 100,
    delta0 := 1, tau := 1, maxIter := 100, useCholesky := true }

/-- Variant of `ctrlA` with a large `minStep` floor, so that the second step of the
`objLine` trace dies in the minimum-step guard. -/
def ctrlB : Control := { ctrlA with minStep := 3 / 4 }

/-- Starting point `x = 0`. -/
def p0 : Vec 1 := fun _ => 0

/-- Starting point `x = 1`. -/
def p1 : Vec 1 := fun _ => 1

/-- Starting point `x = 10`. -/
def p10 : Vec 1 := fun _ => 10

/-- Terminal-flag monotonicity between two flag states: none of the
`SUCCESS_*` / `FAILURE_*` bits gets cleared. -/
def stickyMono (a b : StateFlags) : Prop :=
  (a.successFtol ≤ b.successFtol) ∧ (a.successGtol ≤ b.successGtol) ∧
  (a.failureMinstep ≤ b.failureMinstep) ∧ (a.failureMintrust ≤ b.failureMintrust) ∧
  (a.failureMaxiter ≤ b.failureMaxiter)

/-! ### Concrete traces used by counterexamples and witnesses -/

/-- Fresh optimizer on `f(x) = x - 2` from `x = 0` with the large `minStep`
floor of `ctrlB`. -/
def sL0 : OptState 1 1 := init objLine ctrlB p0

/-- One accepted LM step later (`x = 1`, `Q = 1/2`, `STEP_ACCEPTED` set). -/
def sL1 : OptState 1 1 := step objLine solveExact1 sL0

/-- Fresh optimizer on `f(x) = x` from `x = 1` (every constant proposal
`h = 1` is rejected: `QNew = 2 >= 1/2 = Q`). -/
def sR0 : OptState 1 1 := init objId ctrlA p1

/-- After one rejected LM step (`nu = 4`). -/
def sR1 : OptState 1 1 := step objId (solveConst 1) sR0

/-- After two rejected LM steps (`nu = 8`). -/
def sR2 : OptState 1 1 := step objId (solveConst 1) sR1

/-- After three rejected LM steps (`nu = 16`). -/
def sR3 : OptState 1 1 := step objId (solveConst 1) sR2

/-- After four rejected LM steps (`nu = 32`, switched to BFGS). -/
def sR4 : OptState 1 1 := step objId (solveConst 1) sR3

/-- Fresh optimizer on the clamp-then-invalid objective. -/
def sM0 : OptState 1 1 := init objModThenInvalid ctrlA p0

/-- After one accepted `MODIFIED` step (`STEP_MODIFIED` set, `x = 1/2`). -/
def sM1 : OptState 1 1 := step objModThenInvalid solveExact1 sM0

/-- After a further `INVALID` step: both transient flags are set. -/
def sM2 : OptState 1 1 := step objModThenInvalid solveExact1 sM1

/-! ### Claim C6: the BFGS curvature update -/

/-- The update vector of line 221 as a function of the pre-update state. -/
def yFormula {n m : ℕ} (t : OptState n m) : Vec n :=
  t.JNewᵀ *ᵥ (t.JNew *ᵥ t.h) + (t.gNew - t.g)

/-- The claim-C6 property: the update vector used by the engine, and the
conditional rank-2 update of `B`, relative to the pre-step `g` and `B`. -/
def bfgsUpdateSpec {n m : ℕ} (g0 : Vec n) (B0 : Mat n n) (s' : OptState n m) : Prop :=
  s'.y = s'.JNewᵀ *ᵥ (s'.JNew *ᵥ s'.h) + (s'.gNew - g0) ∧
  (s'.h ⬝ᵥ s'.y > 0 → s'.B = bfgsUpdate B0 s'.h s'.y) ∧
  (¬ (s'.h ⬝ᵥ s'.y > 0) → s'.B = B0)

/-- Fresh optimizer on the stuck objective from `x = 10` (`Q = 1/2`; every
proposal is rejected, with a Jacobian that keeps `hᵀy > 0`). -/
def sS0 : OptState 1 1 := init objStuck ctrlA p10

/-- After four rejected LM steps: method is BFGS with `delta = 1/20`. -/
def sS4 : OptState 1 1 :=
  step objStuck (solveConst (1 / 4)) (step objStuck (solveConst (1 / 4))
    (step objStuck (solveConst (1 / 4)) (step objStuck (solveConst (1 / 4)) sS0)))

/-- The fifth step: evaluated, rejected, and dead in the trust-radius guard. -/
def sS5 : OptState 1 1 := step objStuck (solveConst (1 / 4)) sS4

/-- Positive definiteness of a rational symmetric matrix. -/
def isPosDef {k : ℕ} (M : Mat k k) : Prop :=
  M.IsSymm ∧ ∀ z : Vec k, z ≠ 0 → 0 < z ⬝ᵥ (M *ᵥ z)

/-! ### Claim C8: the eigen-mode solver -/

/-- Embedding of `std::numeric_limits<double>::epsilon() = 2^-52`. -/
def epsMachine : ℚ := 1 / 2 ^ 52

/-- Line 272: `threshold = eigenvalues()[rank-1] * epsilon` (eigenvalues
ascending, so this is `lambda_max * eps`). -/
def eigThreshold {n : ℕ} (hn : 0 < n) (eigval : Fin n → ℚ) : ℚ :=
  eigval ⟨n - 1, by omega⟩ * epsMachine

/-- Lines 273-274: the deflation scan `for (; i < rank && eigval[i] < threshold; ++i)`
over the ascending eigenvalues. -/
def eigDeflate {n : ℕ} (hn : 0 < n) (eigval : Fin n → ℚ) : ℕ :=
  ((List.ofFn eigval).takeWhile
    (fun a => decide (a < eigThreshold hn eigval))).length

/-- Lines 265-279, eigen mode (`useCholesky` false), as a function of the
eigensolver output (ascending eigenvalues `eigval`, orthonormal eigenvector
columns `V`): returns `h = V_r Λ_r⁻¹ V_rᵀ (-g)` built from the trailing
`rank` eigenpairs, and the effective `rank = n - i`. -/
def solveEig {n : ℕ} (hn : 0 < n) (eigval : Fin n → ℚ) (V : Mat n n)
    (g : Vec n) : Vec n × ℕ :=
  (fun r => Finset.univ.sum fun j : Fin n =>
      if eigDeflate hn eigval ≤ (j : ℕ) then
        (1 / eigval j) * (((fun k => V k j) ⬝ᵥ (-g)) * V r j)
      else 0,
   n - eigDeflate hn eigval)

/-! ### Claim C9: NaN-safe guard polarity -/

/-- An IEEE-754-style scalar: NaN, signed infinity, or a finite value (exact
arithmetic on the finite part).  Used to model the behaviour of the
`!(x > threshold)` guards of the source under NaN and infinities. -/
inductive Flt where
  | nan
  | inf (pos : Bool)
  | fin (q : ℚ)
deriving DecidableEq, Repr

/-- IEEE `>`: any comparison involving NaN is false. -/
def Flt.gtb : Flt → Flt → Bool
  | .nan, _ => false
  | _, .nan => false
  | .inf true, .inf true => false
  | .inf true, _ => true
  | .inf false, _ => false
  | .fin _, .inf true => false
  | .fin _, .inf false => true
  | .fin a, .fin b => decide (b < a)

/-- IEEE `<=`: any comparison involving NaN is false. -/
def Flt.leb : Flt → Flt → Bool
  | .nan, _ => false
  | _, .nan => false
  | .inf true, .inf true => true
  | .inf true, _ => false
  | .inf false, _ => true
  | .fin _, .inf true => true
  | .fin _, .inf false => false
  | .fin a, .fin b => decide (a ≤ b)

/-- IEEE addition (NaN propagates; opposite infinities give NaN). -/
def Flt.add : Flt → Flt → Flt
  | .nan, _ => .nan
  | _, .nan => .nan
  | .inf a, .inf b => if a = b then .inf a else .nan
  | .inf a, .fin _ => .inf a
  | .fin _, .inf b => .inf b
  | .fin a, .fin b => .fin (a + b)

/-- IEEE multiplication (NaN propagates; `0 * inf = NaN`). -/
def Flt.mul : Flt → Flt → Flt
  | .nan, _ => .nan
  | _, .nan => .nan
  | .inf a, .inf b => .inf (a == b)
  | .inf a, .fin q => if q = 0 then .nan else .inf (a == decide (0 < q))
  | .fin q, .inf b => if q = 0 then .nan else .inf (b == decide (0 < q))
  | .fin a, .fin b => .fin (a * b)

/-- Embedding of `HybridOptimizer::Impl::checkStep` on IEEE-style scalars:
`if (!(stepNorm > minStep * (x.norm() + minStep))) { state |= bad; return false; }`. -/
def checkStepF (flags : StateFlags) (minStep xnorm stepNorm : Flt)
    (bad : TermFlag) : StateFlags × Bool :=
  if !(Flt.gtb stepNorm (Flt.mul minStep (Flt.add xnorm minStep))) then
    (orFlag flags bad, false)
  else
    (flags, true)

/-- The state produced by a failing `checkStep(delta, FAILURE_MINTRUST)`
after the halving. -/
def mintrustResult {n m : ℕ} (s : OptState n m) : OptState n m :=
  { s with delta := s.delta / 2, state := orFlag s.state .FAILURE_MINTRUST }

theorem stickyMono_refl (a : StateFlags) : stickyMono a a := by
  simp [stickyMono]

theorem stickyMono_trans {a b c : StateFlags} (h1 : stickyMono a b)
    (h2 : stickyMono b c) : stickyMono a c := by
  obtain ⟨u1, u2, u3, u4, u5⟩ := h1
  obtain ⟨v1, v2, v3, v4, v5⟩ := h2
  exact ⟨le_trans u1 v1, le_trans u2 v2, le_trans u3 v3, le_trans u4 v4, le_trans u5 v5⟩

theorem stickyMono_checkStep {n m : ℕ} (s : OptState n m) (q : ℚ) (b : TermFlag) :
    stickyMono s.state ((checkStep s q b).1).state := by
  unfold checkStep orFlag
  cases b <;> split <;> simp [stickyMono]

theorem stickyMono_of_eq {a b c : StateFlags} (h : a = b) (h2 : stickyMono b c) :
    stickyMono a c := h ▸ h2

theorem state_updateY {n m : ℕ} (s : OptState n m) : (updateY s).state = s.state := rfl

theorem state_updateB {n m : ℕ} (s : OptState n m) : (updateB s).state = s.state := by
  unfold updateB; split <;> rfl

theorem state_switchPhase {n m : ℕ} (s : OptState n m) (nh : ℚ) (b : Bool) :
    (switchPhase s nh b).state = s.state := by
  unfold switchPhase
  split
  · split <;> rfl
  · rfl

theorem stickyMono_commitPhase {n m : ℕ} (s : OptState n m) (ng : ℚ) (ib : Bool) :
    stickyMono s.state (commitPhase s ng ib).state := by
  unfold commitPhase gtolFlag ftolFlag commitVals
  split
  · split <;> split <;> simp [stickyMono]
  · exact stickyMono_refl _

theorem stickyMono_acceptFlag {n m : ℕ} (s : OptState n m) (ib : Bool) :
    stickyMono s.state (acceptFlag s ib).state := by
  unfold acceptFlag
  split <;> simp [stickyMono]

theorem stickyMono_stepFinish {n m : ℕ} (s0 : OptState n m) (nh ng : ℚ)
    (d ib ssm : Bool) :
    stickyMono s0.state ((stepFinish s0 nh ng d ib ssm).1).state := by
  unfold stepFinish
  split
  · exact stickyMono_refl _
  · have h1 := stickyMono_commitPhase (updateB (updateY s0)) ng ib
    rw [state_updateB, state_updateY] at h1
    have h2 := stickyMono_acceptFlag
      (switchPhase (commitPhase (updateB (updateY s0)) ng ib) nh ssm) ib
    rw [state_switchPhase] at h2
    exact stickyMono_trans h1 h2

theorem state_lmReject {n m : ℕ} (s : OptState n m) : (lmReject s).state = s.state := rfl

theorem state_lmAccept {n m : ℕ} (s : OptState n m) (ng : ℚ) :
    ((lmAccept s ng).1).state = s.state := by
  unfold lmAccept; split <;> rfl

theorem stickyMono_bfgsDelta {n m : ℕ} (s : OptState n m) (nh : ℚ) :
    stickyMono s.state ((bfgsDelta s nh).1).state := by
  unfold bfgsDelta
  split
  · split
    · exact stickyMono_refl _
    · split
      · exact stickyMono_of_eq rfl
          (stickyMono_checkStep { s with delta := s.delta / 2 } (s.delta / 2) .FAILURE_MINTRUST)
      · exact stickyMono_refl _
  · exact stickyMono_of_eq rfl
      (stickyMono_checkStep { s with delta := s.delta / 2 } (s.delta / 2) .FAILURE_MINTRUST)

theorem stickyMono_stepEval2 {n m : ℕ} (s : OptState n m) (ng nh : ℚ) (d : Bool) :
    stickyMono s.state ((stepEval2 s ng nh d).1).state := by
  unfold stepEval2
  split
  · split
    · exact stickyMono_bfgsDelta _ _
    · exact stickyMono_trans (stickyMono_bfgsDelta _ _) (stickyMono_stepFinish _ _ _ _ _ _)
  · split
    · exact stickyMono_of_eq (state_lmAccept _ _).symm (stickyMono_stepFinish _ _ _ _ _ _)
    · exact stickyMono_of_eq (state_lmReject _).symm (stickyMono_stepFinish _ _ _ _ _ _)

theorem state_evalPhase {n m : ℕ} (obj : Objective n m) (s : OptState n m) (d : Bool) :
    (evalPhase obj s d).state = s.state := by
  unfold evalPhase; split <;> rfl

theorem state_gnewPhase {n m : ℕ} (s : OptState n m) (c : Bool) :
    (gnewPhase s c).state = s.state := by
  unfold gnewPhase; split <;> rfl

theorem state_preEval {n m : ℕ} (obj : Objective n m) (s : OptState n m) (d : Bool) :
    (preEval obj s d).state = s.state := by
  unfold preEval; rw [state_gnewPhase, state_evalPhase]

theorem stickyMono_stepEval {n m : ℕ} (obj : Objective n m) (s : OptState n m)
    (nh : ℚ) (d : Bool) :
    stickyMono s.state ((stepEval obj s nh d).1).state := by
  unfold stepEval
  exact stickyMono_of_eq (state_preEval _ _ _).symm (stickyMono_stepEval2 _ _ _ _)

theorem stickyMono_modState {n m : ℕ} (s : OptState n m) :
    stickyMono s.state (modState s).state := by
  simp [stickyMono, modState]

theorem stickyMono_invState {n m : ℕ} (s : OptState n m) :
    stickyMono s.state (invState s).state := by
  simp [stickyMono, invState]

theorem stickyMono_validState {n m : ℕ} (s : OptState n m) :
    stickyMono s.state (validState s).state := by
  simp [stickyMono, validState]

theorem vetPhase_INVALID {n m : ℕ} (obj : Objective n m) (s : OptState n m) (nh : ℚ) :
    vetPhase obj s nh .INVALID = stepEval obj (invState s) nh false := rfl

theorem vetPhase_VALID {n m : ℕ} (obj : Objective n m) (s : OptState n m) (nh : ℚ) :
    vetPhase obj s nh .VALID = stepEval obj (validState s) nh true := rfl

theorem vetPhase_MODIFIED {n m : ℕ} (obj : Objective n m) (s : OptState n m) (nh : ℚ) :
    vetPhase obj s nh .MODIFIED =
      if (checkStep (modState s) (norm2 (modState s).h) .FAILURE_MINSTEP).2 = false then
        ((checkStep (modState s) (norm2 (modState s).h) .FAILURE_MINSTEP).1,
         .minstep2, false)
      else stepEval obj (modState s) (norm2 (modState s).h) true := rfl

theorem stickyMono_vetPhase {n m : ℕ} (obj : Objective n m) (s : OptState n m)
    (nh : ℚ) (k : StepResult) :
    stickyMono s.state ((vetPhase obj s nh k).1).state := by
  cases k
  · rw [vetPhase_INVALID]
    exact stickyMono_trans (stickyMono_invState s) (stickyMono_stepEval _ _ _ _)
  · rw [vetPhase_VALID]
    exact stickyMono_trans (stickyMono_validState s) (stickyMono_stepEval _ _ _ _)
  · rw [vetPhase_MODIFIED]
    split
    · exact stickyMono_trans (stickyMono_modState s) (stickyMono_checkStep _ _ _)
    · exact stickyMono_trans (stickyMono_modState s) (stickyMono_stepEval _ _ _ _)

theorem state_solvedState {n m : ℕ} (solve : LinSolver n) (s : OptState n m) :
    (solvedState solve s).state = s.state := rfl

theorem state_clipState {n m : ℕ} (s : OptState n m) (nh : ℚ) :
    (clipState s nh).state = s.state := by
  unfold clipState; split <;> rfl

theorem state_vetInput {n m : ℕ} (obj : Objective n m) (s : OptState n m) :
    (vetInput obj s).state = s.state := rfl

theorem stickyMono_step {n m : ℕ} (obj : Objective n m) (solve : LinSolver n)
    (s : OptState n m) :
    stickyMono s.state (step obj solve s).state := by
  unfold step stepTrace
  split
  · exact stickyMono_of_eq rfl (stickyMono_checkStep (solvedState solve s) _ _)
  · refine stickyMono_of_eq ?_ (stickyMono_vetPhase _ _ _ _)
    rw [state_vetInput, state_clipState, state_solvedState]

theorem stickyMono_runAux {n m : ℕ} (obj : Objective n m) (solve : LinSolver n)
    (k : ℕ) (s : OptState n m) :
    stickyMono s.state (runAux obj solve k s).state := by
  induction k generalizing s with
  | zero => simp [runAux, stickyMono]
  | succ k ih =>
    simp only [runAux]
    split
    · exact stickyMono_step _ _ _
    · exact stickyMono_trans (stickyMono_step _ _ _) (ih _)

theorem stickyMono_run {n m : ℕ} (obj : Objective n m) (solve : LinSolver n)
    (s : OptState n m) :
    stickyMono s.state (run obj solve s).state := by
  unfold run
  exact stickyMono_runAux _ _ _ _

/-- C3: once any of `SUCCESS_FTOL`, `SUCCESS_GTOL`, `FAILURE_MINSTEP`,
`FAILURE_MINTRUST`, `FAILURE_MAXITER` is set in the state bitmask, no
subsequent `step()` or `run()` call clears it (`stickyMono` spells out, bit
by bit, that each terminal flag can only grow); hence only the
`STEP_ACCEPTED`, `STEP_MODIFIED`, `STEP_INVALID` bits are ever cleared. -/
theorem sticky_terminal_flags {n m : ℕ} (obj : Objective n m)
    (solve : LinSolver n) (s : OptState n m) :
    stickyMono s.state (step obj solve s).state ∧
    stickyMono s.state (run obj solve s).state :=
  ⟨stickyMono_step obj solve s, stickyMono_run obj solve s⟩

/-! ### The `STEP_ACCEPTED` bookkeeping (claims C1 and C2) -/

theorem accepted_checkStep {n m : ℕ} (s : OptState n m) (q : ℚ) (b : TermFlag) :
    ((checkStep s q b).1).state.stepAccepted = s.state.stepAccepted := by
  unfold checkStep orFlag
  cases b <;> split <;> rfl

theorem accepted_acceptFlag {n m : ℕ} (s : OptState n m) (ib : Bool) :
    (acceptFlag s ib).state.stepAccepted = ib := by
  unfold acceptFlag
  cases ib <;> simp

theorem accepted_commitPhase {n m : ℕ} (s : OptState n m) (ng : ℚ) (ib : Bool) :
    (commitPhase s ng ib).state.stepAccepted = s.state.stepAccepted := by
  unfold commitPhase gtolFlag ftolFlag commitVals
  split
  · split <;> split <;> rfl
  · rfl

theorem exit_stepFinish {n m : ℕ} (s0 : OptState n m) (nh ng : ℚ)
    (d ib ssm : Bool) :
    (stepFinish s0 nh ng d ib ssm).2 = (if !d then (.noeval, ib) else (.completed, ib)) := by
  unfold stepFinish
  split <;> rfl

theorem accepted_stepFinish {n m : ℕ} (s0 : OptState n m) (nh ng : ℚ)
    (d ib ssm : Bool) :
    ((stepFinish s0 nh ng d ib ssm).1).state.stepAccepted =
      (if !d then s0.state.stepAccepted else ib) := by
  unfold stepFinish
  split
  · rfl
  · exact accepted_acceptFlag _ _

theorem accepted_bfgsDelta {n m : ℕ} (s : OptState n m) (nh : ℚ) :
    ((bfgsDelta s nh).1).state.stepAccepted = s.state.stepAccepted := by
  unfold bfgsDelta
  split
  · split
    · rfl
    · split
      · rw [accepted_checkStep]
      · rfl
  · rw [accepted_checkStep]

theorem accepted_lmAccept {n m : ℕ} (s : OptState n m) (ng : ℚ) :
    (((lmAccept s ng).1)).state.stepAccepted = s.state.stepAccepted := by
  rw [state_lmAccept]

theorem better_stepFinish {n m : ℕ} (s0 : OptState n m) (nh ng : ℚ)
    (d ib ssm : Bool) : (stepFinish s0 nh ng d ib ssm).2.2 = ib := by
  unfold stepFinish
  split <;> rfl

/-- The flag `STEP_ACCEPTED` after the method branch: equal to the final `isBetter` on
a completed path, untouched on the `noeval` and `mintrust` paths. -/
theorem accepted_exit_stepEval2 {n m : ℕ} (s : OptState n m) (ng nh : ℚ) (d : Bool) :
    ((stepEval2 s ng nh d).2.1 = .completed →
      ((stepEval2 s ng nh d).1).state.stepAccepted = (stepEval2 s ng nh d).2.2) ∧
    ((stepEval2 s ng nh d).2.1 ≠ .completed →
      ((stepEval2 s ng nh d).1).state.stepAccepted = s.state.stepAccepted) := by
  unfold stepEval2
  split
  · -- BFGS arm
    split
    · constructor
      · intro hc
        simp at hc
      · intro _
        exact accepted_bfgsDelta s nh
    · constructor
      · intro hc
        rw [accepted_stepFinish]
        cases d
        · rw [exit_stepFinish] at hc
          simp at hc
        · simp [better_stepFinish]
      · intro hc
        rw [exit_stepFinish] at hc
        cases d
        · rw [accepted_stepFinish]
          simp [accepted_bfgsDelta]
        · simp at hc
  · -- LM arm
    split
    · constructor
      · intro hc
        rw [accepted_stepFinish]
        cases d
        · rw [exit_stepFinish] at hc
          simp at hc
        · simp [better_stepFinish]
      · intro hc
        rw [exit_stepFinish] at hc
        cases d
        · rw [accepted_stepFinish]
          simp [accepted_lmAccept]
        · simp at hc
    · constructor
      · intro hc
        rw [accepted_stepFinish]
        cases d
        · rw [exit_stepFinish] at hc
          simp at hc
        · simp [better_stepFinish]
      · intro hc
        rw [exit_stepFinish] at hc
        cases d
        · rw [accepted_stepFinish]
          simp [state_lmReject]
        · simp at hc

/-- Lift of `accepted_exit_stepEval2` through the evaluation phase. -/
theorem accepted_exit_stepEval {n m : ℕ} (obj : Objective n m) (s : OptState n m)
    (nh : ℚ) (d : Bool) :
    ((stepEval obj s nh d).2.1 = .completed →
      ((stepEval obj s nh d).1).state.stepAccepted = (stepEval obj s nh d).2.2) ∧
    ((stepEval obj s nh d).2.1 ≠ .completed →
      ((stepEval obj s nh d).1).state.stepAccepted = s.state.stepAccepted) := by
  have h := accepted_exit_stepEval2 (preEval obj s d) (preNg obj s d) nh d
  rw [state_preEval] at h
  exact h

theorem accepted_modState {n m : ℕ} (s : OptState n m) :
    (modState s).state.stepAccepted = s.state.stepAccepted := rfl

theorem accepted_invState {n m : ℕ} (s : OptState n m) :
    (invState s).state.stepAccepted = s.state.stepAccepted := rfl

theorem accepted_validState {n m : ℕ} (s : OptState n m) :
    (validState s).state.stepAccepted = s.state.stepAccepted := rfl

/-- Lift of the `STEP_ACCEPTED` characterization through the vet dispatch. -/
theorem accepted_exit_vetPhase {n m : ℕ} (obj : Objective n m) (s : OptState n m)
    (nh : ℚ) (k : StepResult) :
    ((vetPhase obj s nh k).2.1 = .completed →
      ((vetPhase obj s nh k).1).state.stepAccepted = (vetPhase obj s nh k).2.2) ∧
    ((vetPhase obj s nh k).2.1 ≠ .completed →
      ((vetPhase obj s nh k).1).state.stepAccepted = s.state.stepAccepted) := by
  cases k
  · rw [vetPhase_INVALID]
    have h := accepted_exit_stepEval obj (invState s) nh false
    rw [accepted_invState] at h
    exact h
  · rw [vetPhase_VALID]
    have h := accepted_exit_stepEval obj (validState s) nh true
    rw [accepted_validState] at h
    exact h
  · rw [vetPhase_MODIFIED]
    split
    · constructor
      · intro hc
        simp at hc
      · intro _
        rw [accepted_checkStep, accepted_modState]
    · have h := accepted_exit_stepEval obj (modState s) (norm2 (modState s).h) true
      rw [accepted_modState] at h
      exact h

/-- The flag `STEP_ACCEPTED` after a full `step()`: equal to the final `isBetter` when
the call ran to completion, untouched by every early return. -/
theorem accepted_exit_step {n m : ℕ} (obj : Objective n m) (solve : LinSolver n)
    (s : OptState n m) :
    ((stepTrace obj solve s).2.1 = .completed →
      ((stepTrace obj solve s).1).state.stepAccepted = (stepTrace obj solve s).2.2) ∧
    ((stepTrace obj solve s).2.1 ≠ .completed →
      ((stepTrace obj solve s).1).state.stepAccepted = s.state.stepAccepted) := by
  unfold stepTrace
  split
  · constructor
    · intro hc
      simp at hc
    · intro _
      exact accepted_checkStep (solvedState solve s) _ _
  · have h := accepted_exit_vetPhase obj
      (vetInput obj (clipState (solvedState solve s) (norm2 (solvedState solve s).h)))
      (norm2 (solvedState solve s).h)
      (vetVerdict obj (clipState (solvedState solve s) (norm2 (solvedState solve s).h))).1
    rw [show (vetInput obj (clipState (solvedState solve s) (norm2 (solvedState solve s).h))).state
          = s.state by rw [state_vetInput, state_clipState, state_solvedState]] at h
    exact h

/-! ### The committed objective value (claim C1) -/

theorem wval_coe (q : ℚ) : wval (q : WithTop ℚ) = q := rfl

theorem Q_checkStep {n m : ℕ} (s : OptState n m) (q : ℚ) (b : TermFlag) :
    ((checkStep s q b).1).Q = s.Q := by
  unfold checkStep orFlag
  cases b <;> split <;> rfl

theorem Q_acceptFlag {n m : ℕ} (s : OptState n m) (ib : Bool) :
    (acceptFlag s ib).Q = s.Q := by
  unfold acceptFlag; split <;> rfl

theorem Q_switchPhase {n m : ℕ} (s : OptState n m) (nh : ℚ) (b : Bool) :
    (switchPhase s nh b).Q = s.Q := by
  unfold switchPhase
  split
  · split <;> rfl
  · rfl

theorem Q_gtolFlag {n m : ℕ} (s : OptState n m) : (gtolFlag s).Q = s.Q := by
  unfold gtolFlag; split <;> rfl

theorem Q_ftolFlag {n m : ℕ} (s : OptState n m) : (ftolFlag s).Q = s.Q := by
  unfold ftolFlag; split <;> rfl

theorem Q_updateY {n m : ℕ} (s : OptState n m) : (updateY s).Q = s.Q := rfl

theorem QNew_updateY {n m : ℕ} (s : OptState n m) : (updateY s).QNew = s.QNew := rfl

theorem Q_updateB {n m : ℕ} (s : OptState n m) : (updateB s).Q = s.Q := by
  unfold updateB; split <;> rfl

theorem QNew_updateB {n m : ℕ} (s : OptState n m) : (updateB s).QNew = s.QNew := by
  unfold updateB; split <;> rfl

theorem Q_commitPhase {n m : ℕ} (s : OptState n m) (ng : ℚ) (ib : Bool) :
    (commitPhase s ng ib).Q = (if ib then wval s.QNew else s.Q) := by
  unfold commitPhase
  cases ib
  · rfl
  · rw [if_pos rfl, Q_gtolFlag, Q_ftolFlag]
    rfl

theorem Q_stepFinish {n m : ℕ} (s0 : OptState n m) (nh ng : ℚ)
    (d ib ssm : Bool) :
    ((stepFinish s0 nh ng d ib ssm).1).Q =
      (if d && ib then wval s0.QNew else s0.Q) := by
  unfold stepFinish
  split
  · simp_all
  · have hd : d = true := by simp_all
    subst hd
    show (acceptFlag (switchPhase (commitPhase (updateB (updateY s0)) ng ib) nh ssm) ib).Q = _
    rw [Q_acceptFlag, Q_switchPhase, Q_commitPhase, QNew_updateB, QNew_updateY,
        Q_updateB, Q_updateY]
    cases ib <;> simp

theorem Q_bfgsDelta {n m : ℕ} (s : OptState n m) (nh : ℚ) :
    ((bfgsDelta s nh).1).Q = s.Q := by
  unfold bfgsDelta
  split
  · split
    · rfl
    · split
      · rw [Q_checkStep]
      · rfl
  · rw [Q_checkStep]

theorem QNew_checkStep {n m : ℕ} (s : OptState n m) (q : ℚ) (b : TermFlag) :
    ((checkStep s q b).1).QNew = s.QNew := by
  unfold checkStep orFlag
  cases b <;> split <;> rfl

theorem QNew_bfgsDelta {n m : ℕ} (s : OptState n m) (nh : ℚ) :
    ((bfgsDelta s nh).1).QNew = s.QNew := by
  unfold bfgsDelta
  split
  · split
    · rfl
    · split
      · rw [QNew_checkStep]
      · rfl
  · rw [QNew_checkStep]

theorem Q_lmAccept {n m : ℕ} (s : OptState n m) (ng : ℚ) :
    (((lmAccept s ng).1)).Q = s.Q := by
  unfold lmAccept; split <;> rfl

theorem QNew_lmAccept {n m : ℕ} (s : OptState n m) (ng : ℚ) :
    (((lmAccept s ng).1)).QNew = s.QNew := by
  unfold lmAccept; split <;> rfl

theorem Q_lmReject {n m : ℕ} (s : OptState n m) : (lmReject s).Q = s.Q := rfl

theorem Q_nonneg_growth {q : ℚ} (hQ : 0 ≤ q) : q ≤ (1 + sqrtEps) * q := by
  have hε : (0 : ℚ) ≤ sqrtEps := by norm_num [sqrtEps]
  nlinarith

theorem wval_le_of_le {x : WithTop ℚ} {c : ℚ} (h : x ≤ (c : WithTop ℚ)) :
    wval x ≤ c := by
  cases x with
  | top => simp at h
  | coe q =>
    rw [wval_coe]
    exact_mod_cast h

/-- The objective bound at the method-branch level: `Q` is unchanged unless
the step completes with `isBetter`, in which case the committed value obeys
the acceptance test (strictly below `Q` in the LM branch). -/
theorem Qbound_stepEval2 {n m : ℕ} (s : OptState n m) (ng nh : ℚ) (d : Bool)
    (hQ : 0 ≤ s.Q) :
    ((stepEval2 s ng nh d).2.1 ≠ .completed → ((stepEval2 s ng nh d).1).Q = s.Q) ∧
    ((stepEval2 s ng nh d).2.1 = .completed → (stepEval2 s ng nh d).2.2 = true →
      ((stepEval2 s ng nh d).1).Q ≤ (1 + sqrtEps) * s.Q ∧
      (s.method = .LM → ((stepEval2 s ng nh d).1).Q < s.Q)) := by
  unfold stepEval2
  split
  · -- BFGS arm
    rename_i heq
    split
    · exact ⟨fun _ => Q_bfgsDelta s nh, fun hc => by simp at hc⟩
    · constructor
      · intro hne
        rw [exit_stepFinish] at hne
        cases d
        · rw [Q_stepFinish]
          simp [Q_bfgsDelta]
        · simp at hne
      · intro hc hib
        rw [better_stepFinish] at hib
        rw [exit_stepFinish] at hc
        cases d
        · simp at hc
        · rw [Q_stepFinish, QNew_bfgsDelta]
          have hib2 := hib
          unfold bfgsBetter at hib2
          simp only [Bool.or_eq_true, Bool.and_eq_true, decide_eq_true_eq] at hib2
          have hle : s.QNew ≤ (((1 + sqrtEps) * s.Q : ℚ) : WithTop ℚ) := by
            rcases hib2 with h1 | ⟨h2, _⟩
            · exact le_of_lt
                (lt_of_lt_of_le h1 (by exact_mod_cast Q_nonneg_growth hQ))
            · exact h2
          rw [hib]
          simp only [Bool.and_self, if_pos]
          refine ⟨wval_le_of_le hle, ?_⟩
          intro hLM
          rw [heq] at hLM
          exact absurd hLM (by simp)
  · -- LM arm
    rename_i heq
    split
    · -- accepted: QNew < Q
      rename_i hlt
      constructor
      · intro hne
        rw [exit_stepFinish] at hne
        cases d
        · rw [Q_stepFinish]
          simp [Q_lmAccept]
        · simp at hne
      · intro hc _
        rw [exit_stepFinish] at hc
        cases d
        · simp at hc
        · rw [Q_stepFinish, QNew_lmAccept]
          cases hw : s.QNew with
          | top =>
            rw [hw] at hlt
            simp at hlt
          | coe q =>
            rw [hw] at hlt
            have hqlt : q < s.Q := by exact_mod_cast hlt
            simp only [Bool.and_self, if_pos, wval_coe]
            exact ⟨le_trans (le_of_lt hqlt) (Q_nonneg_growth hQ), fun _ => hqlt⟩
    · -- rejected
      constructor
      · intro hne
        rw [exit_stepFinish] at hne
        cases d
        · rw [Q_stepFinish]
          simp [Q_lmReject]
        · simp at hne
      · intro hc hib
        rw [better_stepFinish] at hib
        simp at hib

theorem Q_evalPhase {n m : ℕ} (obj : Objective n m) (s : OptState n m) (d : Bool) :
    (evalPhase obj s d).Q = s.Q := by
  unfold evalPhase; split <;> rfl

theorem Q_gnewPhase {n m : ℕ} (s : OptState n m) (c : Bool) :
    (gnewPhase s c).Q = s.Q := by
  unfold gnewPhase; split <;> rfl

theorem Q_preEval {n m : ℕ} (obj : Objective n m) (s : OptState n m) (d : Bool) :
    (preEval obj s d).Q = s.Q := by
  unfold preEval; rw [Q_gnewPhase, Q_evalPhase]

theorem method_evalPhase {n m : ℕ} (obj : Objective n m) (s : OptState n m) (d : Bool) :
    (evalPhase obj s d).method = s.method := by
  unfold evalPhase; split <;> rfl

theorem method_gnewPhase {n m : ℕ} (s : OptState n m) (c : Bool) :
    (gnewPhase s c).method = s.method := by
  unfold gnewPhase; split <;> rfl

theorem method_preEval {n m : ℕ} (obj : Objective n m) (s : OptState n m) (d : Bool) :
    (preEval obj s d).method = s.method := by
  unfold preEval; rw [method_gnewPhase, method_evalPhase]

/-- Lift of `Qbound_stepEval2` through the evaluation phase. -/
theorem Qbound_stepEval {n m : ℕ} (obj : Objective n m) (s : OptState n m)
    (nh : ℚ) (d : Bool) (hQ : 0 ≤ s.Q) :
    ((stepEval obj s nh d).2.1 ≠ .completed → ((stepEval obj s nh d).1).Q = s.Q) ∧
    ((stepEval obj s nh d).2.1 = .completed → (stepEval obj s nh d).2.2 = true →
      ((stepEval obj s nh d).1).Q ≤ (1 + sqrtEps) * s.Q ∧
      (s.method = .LM → ((stepEval obj s nh d).1).Q < s.Q)) := by
  have h := Qbound_stepEval2 (preEval obj s d) (preNg obj s d) nh d
    (by rw [Q_preEval]; exact hQ)
  rw [Q_preEval, method_preEval] at h
  exact h

theorem Q_modState {n m : ℕ} (s : OptState n m) : (modState s).Q = s.Q := rfl

theorem Q_invState {n m : ℕ} (s : OptState n m) : (invState s).Q = s.Q := rfl

theorem Q_validState {n m : ℕ} (s : OptState n m) : (validState s).Q = s.Q := rfl

theorem method_modState {n m : ℕ} (s : OptState n m) : (modState s).method = s.method := rfl

theorem method_invState {n m : ℕ} (s : OptState n m) : (invState s).method = s.method := rfl

theorem method_validState {n m : ℕ} (s : OptState n m) : (validState s).method = s.method := rfl

/-- Lift of the objective bound through the vet dispatch. -/
theorem Qbound_vetPhase {n m : ℕ} (obj : Objective n m) (s : OptState n m)
    (nh : ℚ) (k : StepResult) (hQ : 0 ≤ s.Q) :
    ((vetPhase obj s nh k).2.1 ≠ .completed → ((vetPhase obj s nh k).1).Q = s.Q) ∧
    ((vetPhase obj s nh k).2.1 = .completed → (vetPhase obj s nh k).2.2 = true →
      ((vetPhase obj s nh k).1).Q ≤ (1 + sqrtEps) * s.Q ∧
      (s.method = .LM → ((vetPhase obj s nh k).1).Q < s.Q)) := by
  cases k
  · rw [vetPhase_INVALID]
    have h := Qbound_stepEval obj (invState s) nh false hQ
    rw [Q_invState, method_invState] at h
    exact h
  · rw [vetPhase_VALID]
    have h := Qbound_stepEval obj (validState s) nh true hQ
    rw [Q_validState, method_validState] at h
    exact h
  · rw [vetPhase_MODIFIED]
    split
    · refine ⟨fun _ => ?_, fun hc => by simp at hc⟩
      rw [Q_checkStep, Q_modState]
    · have h := Qbound_stepEval obj (modState s) (norm2 (modState s).h) true hQ
      rw [Q_modState, method_modState] at h
      exact h

theorem Q_solvedState {n m : ℕ} (solve : LinSolver n) (s : OptState n m) :
    (solvedState solve s).Q = s.Q := rfl

theorem Q_clipState {n m : ℕ} (s : OptState n m) (nh : ℚ) :
    (clipState s nh).Q = s.Q := by
  unfold clipState; split <;> rfl

theorem Q_vetInput {n m : ℕ} (obj : Objective n m) (s : OptState n m) :
    (vetInput obj s).Q = s.Q := rfl

theorem method_solvedState {n m : ℕ} (solve : LinSolver n) (s : OptState n m) :
    (solvedState solve s).method = s.method := rfl

theorem method_clipState {n m : ℕ} (s : OptState n m) (nh : ℚ) :
    (clipState s nh).method = s.method := by
  unfold clipState; split <;> rfl

theorem method_vetInput {n m : ℕ} (obj : Objective n m) (s : OptState n m) :
    (vetInput obj s).method = s.method := rfl

/-- The objective bound over a whole `step()` call: `Q` is unchanged on every
early return, and a completed accepted step obeys the acceptance test. -/
theorem Qbound_step {n m : ℕ} (obj : Objective n m) (solve : LinSolver n)
    (s : OptState n m) (hQ : 0 ≤ s.Q) :
    ((stepTrace obj solve s).2.1 ≠ .completed →
      ((stepTrace obj solve s).1).Q = s.Q) ∧
    ((stepTrace obj solve s).2.1 = .completed →
      (stepTrace obj solve s).2.2 = true →
      ((stepTrace obj solve s).1).Q ≤ (1 + sqrtEps) * s.Q ∧
      (s.method = .LM → ((stepTrace obj solve s).1).Q < s.Q)) := by
  unfold stepTrace
  split
  · refine ⟨fun _ => ?_, fun hc => by simp at hc⟩
    rw [Q_checkStep, Q_solvedState]
  · have h := Qbound_vetPhase obj
      (vetInput obj (clipState (solvedState solve s) (norm2 (solvedState solve s).h)))
      (norm2 (solvedState solve s).h)
      (vetVerdict obj (clipState (solvedState solve s) (norm2 (solvedState solve s).h))).1
      (by rw [Q_vetInput, Q_clipState, Q_solvedState]; exact hQ)
    rw [Q_vetInput, Q_clipState, Q_solvedState,
        method_vetInput, method_clipState, method_solvedState] at h
    exact h

/-! ### Claims C1 and C2 -/

/-- C1 (amended): for every call to `step()`, if `STEP_ACCEPTED` is set when
`step()` returns then the committed value satisfies
`Q_new ≤ Q_prev * (1 + sqrt(eps_machine))`, and the inequality is strict
(`Q_new < Q_prev`) whenever the step was taken with `method == LM` **and the
flag was set by this call rather than left over from an earlier accepted step**
(early returns through the guards or an INVALID proposal keep a stale
`STEP_ACCEPTED`, with `Q` unchanged; freshly set, i.e. not set before the
call, implies the call completed with `isBetter`). -/
theorem monotone_acceptance {n m : ℕ} (obj : Objective n m) (solve : LinSolver n)
    (s : OptState n m) (hQ : 0 ≤ s.Q)
    (hacc : (step obj solve s).state.stepAccepted = true) :
    (step obj solve s).Q ≤ (1 + sqrtEps) * s.Q ∧
    (s.state.stepAccepted = false → s.method = .LM → (step obj solve s).Q < s.Q) := by
  simp only [step] at hacc ⊢
  have hae := accepted_exit_step obj solve s
  have hqb := Qbound_step obj solve s hQ
  by_cases hc : (stepTrace obj solve s).2.1 = .completed
  · have hib : (stepTrace obj solve s).2.2 = true := by
      rw [← hae.1 hc]
      exact hacc
    have hb := hqb.2 hc hib
    exact ⟨hb.1, fun _ => hb.2⟩
  · have hQeq := hqb.1 hc
    constructor
    · rw [hQeq]
      exact Q_nonneg_growth hQ
    · intro hacc0 _
      have hpres := hae.2 hc
      rw [hacc, hacc0] at hpres
      exact absurd hpres (by simp)

/-- C1 counterexample: the claim as stated fails.  From `sL1` (reached by one
accepted LM step of a fresh optimizer on `f(x) = x - 2`), the next `step()`
dies in the minimum-step guard and returns with the stale `STEP_ACCEPTED`
still set, `method == LM`, and `Q` exactly unchanged — no strict decrease. -/
theorem monotone_acceptance_counterexample :
    0 ≤ sL1.Q ∧
    sL1.method = .LM ∧
    (step objLine solveExact1 sL1).state.stepAccepted = true ∧
    (step objLine solveExact1 sL1).Q = sL1.Q ∧
    ¬ ((step objLine solveExact1 sL1).Q < sL1.Q) := by
  refine ⟨?_, ?_, ?_, ?_, ?_⟩
  · show (0 : ℚ) ≤ sL1.Q
    rw [show sL1.Q = 1 / 2 by with_unfolding_all rfl]
    norm_num
  · with_unfolding_all rfl
  · with_unfolding_all rfl
  · with_unfolding_all rfl
  · rw [show (step objLine solveExact1 sL1).Q = 1 / 2 by with_unfolding_all rfl,
        show sL1.Q = 1 / 2 by with_unfolding_all rfl]
    norm_num

/-- C1 witness: the amended theorem applied to the fresh optimizer `sL0`,
whose first LM step is accepted and strictly decreases `Q` (from 2 to 1/2). -/
theorem monotone_acceptance_witness :
    (step objLine solveExact1 sL0).Q ≤ (1 + sqrtEps) * sL0.Q ∧
    (sL0.state.stepAccepted = false → sL0.method = .LM →
      (step objLine solveExact1 sL0).Q < sL0.Q) :=
  monotone_acceptance objLine solveExact1 sL0
    (by rw [show sL0.Q = 2 by with_unfolding_all rfl]; norm_num)
    (by with_unfolding_all rfl)

/-- C2 (amended): at the end of every `step()` call that runs to completion,
`STEP_ACCEPTED` equals the step acceptance outcome `isBetter` (set iff the
test held); however, calls that end early — through the minimum-step guard,
the trust-radius guard, or an INVALID proposal's no-evaluation return — leave
`STEP_ACCEPTED` exactly as it was before the call instead of clearing it. -/
theorem accepted_iff_better {n m : ℕ} (obj : Objective n m) (solve : LinSolver n)
    (s : OptState n m) :
    ((stepTrace obj solve s).2.1 = .completed →
      (step obj solve s).state.stepAccepted = (stepTrace obj solve s).2.2) ∧
    ((stepTrace obj solve s).2.1 ≠ .completed →
      (step obj solve s).state.stepAccepted = s.state.stepAccepted) := by
  simp only [step]
  exact accepted_exit_step obj solve s

/-- C2 counterexample: the claim as stated fails.  The step out of `sL1` ends
early in the minimum-step guard, so its acceptance test did not hold
(`isBetter` is `false`), yet `STEP_ACCEPTED` is still set when `step()`
returns — the early return does not clear it. -/
theorem accepted_iff_better_counterexample :
    (stepTrace objLine solveExact1 sL1).2.1 = .minstep1 ∧
    (stepTrace objLine solveExact1 sL1).2.2 = false ∧
    (step objLine solveExact1 sL1).state.stepAccepted = true := by
  refine ⟨?_, ?_, ?_⟩ <;> with_unfolding_all rfl

/-- C2 witness: the amended theorem applied to `sL0`, whose first step runs
to completion and sets `STEP_ACCEPTED = isBetter = true`. -/
theorem accepted_iff_better_witness :
    (step objLine solveExact1 sL0).state.stepAccepted =
      (stepTrace objLine solveExact1 sL0).2.2 :=
  (accepted_iff_better objLine solveExact1 sL0).1 (by with_unfolding_all rfl)

/-! ### Claim C4: INVALID proposals -/

theorem preEval_false {n m : ℕ} (obj : Objective n m) (s : OptState n m) :
    preEval obj s false = s := by
  unfold preEval gnewPhase gradCond evalPhase
  simp

theorem preNg_false {n m : ℕ} (obj : Objective n m) (s : OptState n m) :
    preNg obj s false = 0 := by
  unfold preNg ngVal gradCond evalPhase
  simp

theorem stepEval2_LM {n m : ℕ} {s : OptState n m} (ng nh : ℚ) (d : Bool)
    (hm : s.method = .LM) :
    stepEval2 s ng nh d =
      if s.QNew < (s.Q : WithTop ℚ) then
        stepFinish (lmAccept s ng).1 nh ng d true (lmAccept s ng).2
      else
        stepFinish (lmReject s) nh ng d false (decide ((lmReject s).nu ≥ 32)) := by
  unfold stepEval2
  split
  · rename_i heq
    rw [hm] at heq
    cases heq
  · rfl

theorem stepEval2_BFGS {n m : ℕ} {s : OptState n m} (ng nh : ℚ) (d : Bool)
    (hm : s.method = .BFGS) :
    stepEval2 s ng nh d =
      if (bfgsDelta s nh).2 = false then
        ((bfgsDelta s nh).1, .mintrust, bfgsBetter s ng)
      else
        stepFinish (bfgsDelta s nh).1 nh ng d (bfgsBetter s ng)
          (decide (ng ≥ s.normInfG)) := by
  unfold stepEval2
  split
  · rfl
  · rename_i heq
    rw [hm] at heq
    cases heq

theorem clipState_LM {n m : ℕ} {s : OptState n m} (nh : ℚ)
    (hm : s.method = .LM) : clipState s nh = s := by
  unfold clipState
  rw [hm]
  simp

theorem QNew_invState {n m : ℕ} (s : OptState n m) :
    (invState s).QNew = (⊤ : WithTop ℚ) := rfl

theorem checkStep_pass {n m : ℕ} {s : OptState n m} {q : ℚ} (b : TermFlag)
    (h : q > s.ctrl.minStep * (norm2 s.x + s.ctrl.minStep)) :
    checkStep s q b = (s, true) := by
  unfold checkStep
  simp [h]

/-- The exact effect of an `INVALID` proposal in LM mode whose solve passed
the minimum-step guard: the step reduces to the `lmReject` damping bump on
the `STEP_INVALID`-flagged state, with no evaluation. -/
theorem step_invalid_LM {n m : ℕ} (obj : Objective n m) (solve : LinSolver n)
    (s : OptState n m) (hLM : s.method = .LM)
    (hGuard : norm2 (solvedState solve s).h >
      s.ctrl.minStep * (norm2 s.x + s.ctrl.minStep))
    (hInv : (vetVerdict obj (solvedState solve s)).1 = .INVALID) :
    stepTrace obj solve s =
      (lmReject (invState (vetInput obj (solvedState solve s))), .noeval, false) := by
  have hGuard' : norm2 (solvedState solve s).h >
      (solvedState solve s).ctrl.minStep *
        (norm2 (solvedState solve s).x + (solvedState solve s).ctrl.minStep) := hGuard
  have hclip : clipState (solvedState solve s) (norm2 (solvedState solve s).h)
      = solvedState solve s :=
    clipState_LM _ (by rw [method_solvedState]; exact hLM)
  unfold stepTrace
  rw [checkStep_pass .FAILURE_MINSTEP hGuard']
  rw [if_neg (show ¬ ((solvedState solve s, true).2 = false) by simp)]
  rw [hclip, hInv, vetPhase_INVALID]
  unfold stepEval
  rw [preEval_false, preNg_false]
  rw [stepEval2_LM 0 (norm2 (solvedState solve s).h) false
    (by rw [method_invState, method_vetInput, method_solvedState]; exact hLM)]
  rw [if_neg (by rw [QNew_invState]; simp)]
  rfl

theorem init_ctrl {n m : ℕ} (obj : Objective n m) (ctrl : Control) (p : Vec n) :
    (init obj ctrl p).ctrl = ctrl := rfl

theorem init_x {n m : ℕ} (obj : Objective n m) (ctrl : Control) (p : Vec n) :
    (init obj ctrl p).x = p := rfl

theorem init_method {n m : ℕ} (obj : Objective n m) (ctrl : Control) (p : Vec n) :
    (init obj ctrl p).method = .LM := rfl

theorem vetInput_congr {n m : ℕ} {obj obj2 : Objective n m} (s : OptState n m)
    (h : obj2.tryStep = obj.tryStep) : vetInput obj2 s = vetInput obj s := by
  unfold vetInput vetVerdict
  rw [h]

/-- C4 (amended): if `tryStep` returns `INVALID` on the first proposal of a
freshly constructed optimizer (so `method == LM`), then after that `step()`
the `STEP_INVALID` flag is set and no call to `computeFunction` or
`computeDerivative` is made during the step (the result does not depend on
them, and `fNew`, `JNew` keep their constructor values while `QNew = +∞`);
the trust radius `delta` is **unchanged** — the trust region is shrunk
through the LM damping instead: `mu <- mu * nu` and `nu` doubles (`delta` is
halved on an INVALID step only when `method == BFGS`). -/
theorem invalid_first_step {n m : ℕ} (obj : Objective n m) (solve : LinSolver n)
    (ctrl : Control) (params : Vec n)
    (hGuard : norm2 (solvedState solve (init obj ctrl params)).h >
      ctrl.minStep * (norm2 params + ctrl.minStep))
    (hInv : (vetVerdict obj (solvedState solve (init obj ctrl params))).1 = .INVALID) :
    (step obj solve (init obj ctrl params)).state.stepInvalid = true ∧
    (step obj solve (init obj ctrl params)).delta = ctrl.delta0 ∧
    (step obj solve (init obj ctrl params)).mu = (init obj ctrl params).mu * 2 ∧
    (step obj solve (init obj ctrl params)).nu = 4 ∧
    (step obj solve (init obj ctrl params)).fNew = (init obj ctrl params).fNew ∧
    (step obj solve (init obj ctrl params)).JNew = (init obj ctrl params).JNew ∧
    (step obj solve (init obj ctrl params)).QNew = (⊤ : WithTop ℚ) ∧
    (∀ obj2 : Objective n m, obj2.tryStep = obj.tryStep →
      step obj2 solve (init obj ctrl params) = step obj solve (init obj ctrl params)) := by
  have heq := step_invalid_LM obj solve (init obj ctrl params)
    (init_method obj ctrl params) hGuard hInv
  refine ⟨?_, ?_, ?_, ?_, ?_, ?_, ?_, ?_⟩
  · simp only [step, heq]
    rfl
  · simp only [step, heq]
    rfl
  · simp only [step, heq]
    rfl
  · simp only [step, heq]
    show (2 : ℚ) * 2 = 4
    norm_num
  · simp only [step, heq]
    rfl
  · simp only [step, heq]
    rfl
  · simp only [step, heq]
    rfl
  · intro obj2 htr
    have hInv2 : (vetVerdict obj2 (solvedState solve (init obj ctrl params))).1
        = .INVALID := by
      unfold vetVerdict
      unfold vetVerdict at hInv
      rw [htr]
      exact hInv
    have heq2 := step_invalid_LM obj2 solve (init obj ctrl params)
      (init_method obj ctrl params) hGuard hInv2
    simp only [step, heq, heq2]
    rw [vetInput_congr _ htr]

/-- C4 counterexample: the claim as stated fails on the trust radius.  A fresh
optimizer on `f(x) = x - 2` with `delta0 = 1` receives `INVALID` on its first
proposal: `STEP_INVALID` is set and nothing is evaluated, but `delta` stays
`1` — it is **not** halved (`mu` doubles instead). -/
theorem invalid_first_step_counterexample :
    (vetVerdict objLineInvalid
      (solvedState solveExact1 (init objLineInvalid ctrlA p0))).1 = .INVALID ∧
    (step objLineInvalid solveExact1 (init objLineInvalid ctrlA p0)).state.stepInvalid
      = true ∧
    ctrlA.delta0 = 1 ∧
    (step objLineInvalid solveExact1 (init objLineInvalid ctrlA p0)).delta = 1 ∧
    ¬ ((step objLineInvalid solveExact1 (init objLineInvalid ctrlA p0)).delta
        = ctrlA.delta0 / 2) := by
  refine ⟨?_, ?_, ?_, ?_, ?_⟩
  · with_unfolding_all rfl
  · with_unfolding_all rfl
  · rfl
  · with_unfolding_all rfl
  · rw [show (step objLineInvalid solveExact1 (init objLineInvalid ctrlA p0)).delta = 1
        by with_unfolding_all rfl,
        show ctrlA.delta0 = 1 from rfl]
    norm_num

/-- C4 witness: the amended theorem applied to the concrete `INVALID`
objective (guard concretely passed, verdict concretely `INVALID`). -/
theorem invalid_first_step_witness :
    (step objLineInvalid solveExact1 (init objLineInvalid ctrlA p0)).state.stepInvalid
      = true ∧
    (step objLineInvalid solveExact1 (init objLineInvalid ctrlA p0)).delta
      = ctrlA.delta0 := by
  have h := invalid_first_step objLineInvalid solveExact1 ctrlA p0
    (by with_unfolding_all decide)
    (by with_unfolding_all rfl)
  exact ⟨h.1, h.2.1⟩

/-! ### Claim C5: LM rejection growth and the switch to BFGS -/

theorem commitPhase_false {n m : ℕ} (s : OptState n m) (ng : ℚ) :
    commitPhase s ng false = s := rfl

theorem stepFinish_reject {n m : ℕ} (s0 : OptState n m) (nh ng : ℚ) (ssm : Bool) :
    (stepFinish s0 nh ng true false ssm).1 =
      acceptFlag (switchPhase (updateB (updateY s0)) nh ssm) false := rfl

theorem nu_updateY {n m : ℕ} (s : OptState n m) : (updateY s).nu = s.nu := rfl

theorem nu_updateB {n m : ℕ} (s : OptState n m) : (updateB s).nu = s.nu := by
  unfold updateB; split <;> rfl

theorem nu_switchPhase {n m : ℕ} (s : OptState n m) (nh : ℚ) (b : Bool) :
    (switchPhase s nh b).nu = s.nu := by
  unfold switchPhase
  split
  · split <;> rfl
  · rfl

theorem nu_acceptFlag {n m : ℕ} (s : OptState n m) (ib : Bool) :
    (acceptFlag s ib).nu = s.nu := by
  unfold acceptFlag; split <;> rfl

theorem mu_updateY {n m : ℕ} (s : OptState n m) : (updateY s).mu = s.mu := rfl

theorem mu_updateB {n m : ℕ} (s : OptState n m) : (updateB s).mu = s.mu := by
  unfold updateB; split <;> rfl

theorem mu_switchPhase {n m : ℕ} (s : OptState n m) (nh : ℚ) (b : Bool) :
    (switchPhase s nh b).mu = s.mu := by
  unfold switchPhase
  split
  · split <;> rfl
  · rfl

theorem mu_acceptFlag {n m : ℕ} (s : OptState n m) (ib : Bool) :
    (acceptFlag s ib).mu = s.mu := by
  unfold acceptFlag; split <;> rfl

theorem method_updateY {n m : ℕ} (s : OptState n m) : (updateY s).method = s.method := rfl

theorem method_updateB {n m : ℕ} (s : OptState n m) : (updateB s).method = s.method := by
  unfold updateB; split <;> rfl

theorem method_acceptFlag {n m : ℕ} (s : OptState n m) (ib : Bool) :
    (acceptFlag s ib).method = s.method := by
  unfold acceptFlag; split <;> rfl

theorem delta_updateY {n m : ℕ} (s : OptState n m) : (updateY s).delta = s.delta := rfl

theorem delta_updateB {n m : ℕ} (s : OptState n m) : (updateB s).delta = s.delta := by
  unfold updateB; split <;> rfl

theorem delta_acceptFlag {n m : ℕ} (s : OptState n m) (ib : Bool) :
    (acceptFlag s ib).delta = s.delta := by
  unfold acceptFlag; split <;> rfl

theorem f_updateY {n m : ℕ} (s : OptState n m) : (updateY s).f = s.f := rfl

theorem f_updateB {n m : ℕ} (s : OptState n m) : (updateB s).f = s.f := by
  unfold updateB; split <;> rfl

theorem ctrl_updateY {n m : ℕ} (s : OptState n m) : (updateY s).ctrl = s.ctrl := rfl

theorem ctrl_updateB {n m : ℕ} (s : OptState n m) : (updateB s).ctrl = s.ctrl := by
  unfold updateB; split <;> rfl

theorem switchPhase_false {n m : ℕ} (s : OptState n m) (nh : ℚ) :
    switchPhase s nh false = s := rfl

theorem switchPhase_LM_true {n m : ℕ} {s : OptState n m} (nh : ℚ)
    (hm : s.method = .LM) :
    switchPhase s nh true =
      { s with delta := max (3 / 2 * s.ctrl.minStep * (sqnorm s.f + s.ctrl.minStep))
                            (1 / 5 * nh),
               method := .BFGS } := by
  unfold switchPhase
  rw [if_pos rfl, hm]

theorem nu_evalPhase {n m : ℕ} (obj : Objective n m) (s : OptState n m) (d : Bool) :
    (evalPhase obj s d).nu = s.nu := by
  unfold evalPhase; split <;> rfl

theorem nu_gnewPhase {n m : ℕ} (s : OptState n m) (c : Bool) :
    (gnewPhase s c).nu = s.nu := by
  unfold gnewPhase; split <;> rfl

theorem nu_preEval {n m : ℕ} (obj : Objective n m) (s : OptState n m) (d : Bool) :
    (preEval obj s d).nu = s.nu := by
  unfold preEval; rw [nu_gnewPhase, nu_evalPhase]

theorem mu_evalPhase {n m : ℕ} (obj : Objective n m) (s : OptState n m) (d : Bool) :
    (evalPhase obj s d).mu = s.mu := by
  unfold evalPhase; split <;> rfl

theorem mu_gnewPhase {n m : ℕ} (s : OptState n m) (c : Bool) :
    (gnewPhase s c).mu = s.mu := by
  unfold gnewPhase; split <;> rfl

theorem mu_preEval {n m : ℕ} (obj : Objective n m) (s : OptState n m) (d : Bool) :
    (preEval obj s d).mu = s.mu := by
  unfold preEval; rw [mu_gnewPhase, mu_evalPhase]

theorem delta_evalPhase {n m : ℕ} (obj : Objective n m) (s : OptState n m) (d : Bool) :
    (evalPhase obj s d).delta = s.delta := by
  unfold evalPhase; split <;> rfl

theorem delta_gnewPhase {n m : ℕ} (s : OptState n m) (c : Bool) :
    (gnewPhase s c).delta = s.delta := by
  unfold gnewPhase; split <;> rfl

theorem delta_preEval {n m : ℕ} (obj : Objective n m) (s : OptState n m) (d : Bool) :
    (preEval obj s d).delta = s.delta := by
  unfold preEval; rw [delta_gnewPhase, delta_evalPhase]

theorem f_evalPhase {n m : ℕ} (obj : Objective n m) (s : OptState n m) (d : Bool) :
    (evalPhase obj s d).f = s.f := by
  unfold evalPhase; split <;> rfl

theorem f_gnewPhase {n m : ℕ} (s : OptState n m) (c : Bool) :
    (gnewPhase s c).f = s.f := by
  unfold gnewPhase; split <;> rfl

theorem f_preEval {n m : ℕ} (obj : Objective n m) (s : OptState n m) (d : Bool) :
    (preEval obj s d).f = s.f := by
  unfold preEval; rw [f_gnewPhase, f_evalPhase]

theorem ctrl_evalPhase {n m : ℕ} (obj : Objective n m) (s : OptState n m) (d : Bool) :
    (evalPhase obj s d).ctrl = s.ctrl := by
  unfold evalPhase; split <;> rfl

theorem ctrl_gnewPhase {n m : ℕ} (s : OptState n m) (c : Bool) :
    (gnewPhase s c).ctrl = s.ctrl := by
  unfold gnewPhase; split <;> rfl

theorem ctrl_preEval {n m : ℕ} (obj : Objective n m) (s : OptState n m) (d : Bool) :
    (preEval obj s d).ctrl = s.ctrl := by
  unfold preEval; rw [ctrl_gnewPhase, ctrl_evalPhase]

theorem QNew_gnewPhase {n m : ℕ} (s : OptState n m) (c : Bool) :
    (gnewPhase s c).QNew = s.QNew := by
  unfold gnewPhase; split <;> rfl

theorem QNew_evalPhase_true {n m : ℕ} (obj : Objective n m) (s : OptState n m) :
    (evalPhase obj s true).QNew =
      ((1 / 2 * sqnorm (obj.computeFunction s.xNew) : ℚ) : WithTop ℚ) := rfl

theorem QNew_preEval_true {n m : ℕ} (obj : Objective n m) (s : OptState n m) :
    (preEval obj s true).QNew =
      ((1 / 2 * sqnorm (obj.computeFunction s.xNew) : ℚ) : WithTop ℚ) := by
  unfold preEval
  rw [QNew_gnewPhase]
  exact QNew_evalPhase_true obj s

/-- The exact effect of a `VALID` rejected proposal in LM mode: the step runs
the `lmReject` damping bump on the evaluated state and finishes with
`isBetter = false` and the `nu >= 32` switch hint. -/
theorem step_reject_valid_LM {n m : ℕ} (obj : Objective n m) (solve : LinSolver n)
    (s : OptState n m) (hLM : s.method = .LM)
    (hGuard : norm2 (solvedState solve s).h >
      s.ctrl.minStep * (norm2 s.x + s.ctrl.minStep))
    (hVal : (vetVerdict obj (solvedState solve s)).1 = .VALID)
    (hRej : ¬ (((1 / 2 * sqnorm (obj.computeFunction
        (vetVerdict obj (solvedState solve s)).2) : ℚ) : WithTop ℚ)
        < (s.Q : WithTop ℚ))) :
    stepTrace obj solve s =
      stepFinish
        (lmReject (preEval obj (validState (vetInput obj (solvedState solve s))) true))
        (norm2 (solvedState solve s).h)
        (preNg obj (validState (vetInput obj (solvedState solve s))) true)
        true false
        (decide ((lmReject (preEval obj
          (validState (vetInput obj (solvedState solve s))) true)).nu ≥ 32)) := by
  have hGuard' : norm2 (solvedState solve s).h >
      (solvedState solve s).ctrl.minStep *
        (norm2 (solvedState solve s).x + (solvedState solve s).ctrl.minStep) := hGuard
  have hclip : clipState (solvedState solve s) (norm2 (solvedState solve s).h)
      = solvedState solve s :=
    clipState_LM _ (by rw [method_solvedState]; exact hLM)
  unfold stepTrace
  rw [checkStep_pass .FAILURE_MINSTEP hGuard']
  rw [if_neg (show ¬ ((solvedState solve s, true).2 = false) by simp)]
  rw [hclip, hVal, vetPhase_VALID]
  unfold stepEval
  rw [stepEval2_LM (preNg obj (validState (vetInput obj (solvedState solve s))) true)
    (norm2 (solvedState solve s).h) true
    (by rw [method_preEval, method_validState, method_vetInput, method_solvedState]
        exact hLM)]
  rw [if_neg (by
    rw [QNew_preEval_true, Q_preEval, Q_validState, Q_vetInput, Q_solvedState]
    exact hRej)]

theorem nu_lmReject {n m : ℕ} (s : OptState n m) : (lmReject s).nu = s.nu * 2 := rfl

theorem mu_lmReject {n m : ℕ} (s : OptState n m) : (lmReject s).mu = s.mu * s.nu := rfl

theorem method_lmReject {n m : ℕ} (s : OptState n m) : (lmReject s).method = s.method := rfl

theorem f_lmReject {n m : ℕ} (s : OptState n m) : (lmReject s).f = s.f := rfl

theorem ctrl_lmReject {n m : ℕ} (s : OptState n m) : (lmReject s).ctrl = s.ctrl := rfl

theorem delta_lmReject {n m : ℕ} (s : OptState n m) : (lmReject s).delta = s.delta := rfl

theorem method_switchPhase_false {n m : ℕ} (s : OptState n m) (nh : ℚ) :
    (switchPhase s nh false).method = s.method := rfl

/-- C5 (amended): on every `VALID`-proposal LM step that is evaluated and
rejected (`QNew >= Q`), the growth factor `nu` is doubled after `mu <- mu*nu`;
when the doubled `nu` reaches at least 32 the method transitions to BFGS
before `step()` returns, with `delta` initialised per the switch rule, and
otherwise the method stays LM.  Starting from `nu = 2` this transition
therefore occurs at the end of the **fourth** consecutive rejected LM step
(`nu` takes 4, 8, 16, 32), not the fifth; on an INVALID rejection the early
`return` at line 219 additionally skips the switch block. -/
theorem lm_reject_growth {n m : ℕ} (obj : Objective n m) (solve : LinSolver n)
    (s : OptState n m) (hLM : s.method = .LM)
    (hGuard : norm2 (solvedState solve s).h >
      s.ctrl.minStep * (norm2 s.x + s.ctrl.minStep))
    (hVal : (vetVerdict obj (solvedState solve s)).1 = .VALID)
    (hRej : ¬ (((1 / 2 * sqnorm (obj.computeFunction
        (vetVerdict obj (solvedState solve s)).2) : ℚ) : WithTop ℚ)
        < (s.Q : WithTop ℚ))) :
    (step obj solve s).nu = s.nu * 2 ∧
    (step obj solve s).mu = s.mu * s.nu ∧
    (s.nu * 2 ≥ 32 → (step obj solve s).method = .BFGS ∧
      (step obj solve s).delta =
        max (3 / 2 * s.ctrl.minStep * (sqnorm s.f + s.ctrl.minStep))
            (1 / 5 * norm2 (solvedState solve s).h)) ∧
    (¬ (s.nu * 2 ≥ 32) → (step obj solve s).method = .LM) := by
  have heq := step_reject_valid_LM obj solve s hLM hGuard hVal hRej
  have hXnu : (lmReject (preEval obj
      (validState (vetInput obj (solvedState solve s))) true)).nu = s.nu * 2 := by
    rw [nu_lmReject, nu_preEval]
    rfl
  have hXmu : (lmReject (preEval obj
      (validState (vetInput obj (solvedState solve s))) true)).mu = s.mu * s.nu := by
    rw [mu_lmReject, mu_preEval, nu_preEval]
    rfl
  have hXm : (lmReject (preEval obj
      (validState (vetInput obj (solvedState solve s))) true)).method = .LM := by
    rw [method_lmReject, method_preEval, method_validState, method_vetInput,
        method_solvedState]
    exact hLM
  have hXf : (lmReject (preEval obj
      (validState (vetInput obj (solvedState solve s))) true)).f = s.f := by
    rw [f_lmReject, f_preEval]
    rfl
  have hXc : (lmReject (preEval obj
      (validState (vetInput obj (solvedState solve s))) true)).ctrl = s.ctrl := by
    rw [ctrl_lmReject, ctrl_preEval]
    rfl
  simp only [step, heq, stepFinish_reject]
  by_cases h32 : s.nu * 2 ≥ 32
  · have hd : decide ((lmReject (preEval obj
        (validState (vetInput obj (solvedState solve s))) true)).nu ≥ 32) = true := by
      rw [hXnu]
      simpa using h32
    rw [hd]
    have hYm : (updateB (updateY (lmReject (preEval obj
        (validState (vetInput obj (solvedState solve s))) true)))).method = .LM := by
      rw [method_updateB, method_updateY]
      exact hXm
    rw [switchPhase_LM_true _ hYm]
    refine ⟨?_, ?_, fun _ => ⟨?_, ?_⟩, fun hn => absurd h32 hn⟩
    · rw [nu_acceptFlag]
      show (updateB (updateY _)).nu = _
      rw [nu_updateB, nu_updateY]
      exact hXnu
    · rw [mu_acceptFlag]
      show (updateB (updateY _)).mu = _
      rw [mu_updateB, mu_updateY]
      exact hXmu
    · rw [method_acceptFlag]
    · rw [delta_acceptFlag]
      show max _ _ = _
      rw [ctrl_updateB, ctrl_updateY, f_updateB, f_updateY, hXf, hXc]
  · have hd : decide ((lmReject (preEval obj
        (validState (vetInput obj (solvedState solve s))) true)).nu ≥ 32) = false := by
      rw [hXnu]
      simpa using h32
    rw [hd, switchPhase_false]
    refine ⟨?_, ?_, fun hn => absurd hn h32, fun _ => ?_⟩
    · rw [nu_acceptFlag, nu_updateB, nu_updateY]
      exact hXnu
    · rw [mu_acceptFlag, mu_updateB, mu_updateY]
      exact hXmu
    · rw [method_acceptFlag, method_updateB, method_updateY]
      exact hXm

/-- C5 counterexample: the claim's count is off by one.  Starting from
`nu = 2`, four — not five — consecutive evaluated rejected LM steps drive
`nu` through 4, 8, 16, 32 and the optimizer is already in BFGS mode (with
`delta` set by the switch rule) at the end of the fourth rejected step, so no
fifth consecutive rejected LM step can exist. -/
theorem lm_reject_growth_counterexample :
    sR1.state.stepAccepted = false ∧ sR2.state.stepAccepted = false ∧
    sR3.state.stepAccepted = false ∧ sR4.state.stepAccepted = false ∧
    sR1.method = .LM ∧ sR2.method = .LM ∧ sR3.method = .LM ∧
    sR1.nu = 4 ∧ sR2.nu = 8 ∧ sR3.nu = 16 ∧
    sR4.method = .BFGS ∧ sR4.nu = 32 ∧ sR4.delta = 1 / 5 := by
  refine ⟨?_, ?_, ?_, ?_, ?_, ?_, ?_, ?_, ?_, ?_, ?_, ?_, ?_⟩ <;>
    with_unfolding_all rfl

/-- C5 witness: the amended theorem applied to `sR3` (`nu = 16`): the fourth
rejection doubles `nu` to 32 and switches the method to BFGS. -/
theorem lm_reject_growth_witness :
    (step objId (solveConst 1) sR3).nu = sR3.nu * 2 ∧
    (step objId (solveConst 1) sR3).mu = sR3.mu * sR3.nu ∧
    (step objId (solveConst 1) sR3).method = .BFGS := by
  have h := lm_reject_growth objId (solveConst 1) sR3
    (by with_unfolding_all rfl)
    (by with_unfolding_all decide)
    (by with_unfolding_all rfl)
    (by with_unfolding_all decide)
  exact ⟨h.1, h.2.1, (h.2.2.1 (by with_unfolding_all decide)).1⟩

/-! ### Claim C10: `STEP_MODIFIED` / `STEP_INVALID` interplay -/

theorem modinv_checkStep {n m : ℕ} (s : OptState n m) (q : ℚ) (b : TermFlag) :
    ((checkStep s q b).1).state.stepModified = s.state.stepModified ∧
    ((checkStep s q b).1).state.stepInvalid = s.state.stepInvalid := by
  unfold checkStep orFlag
  cases b <;> split <;> exact ⟨rfl, rfl⟩

theorem modinv_acceptFlag {n m : ℕ} (s : OptState n m) (ib : Bool) :
    (acceptFlag s ib).state.stepModified = s.state.stepModified ∧
    (acceptFlag s ib).state.stepInvalid = s.state.stepInvalid := by
  unfold acceptFlag
  split <;> exact ⟨rfl, rfl⟩

theorem modinv_commitPhase {n m : ℕ} (s : OptState n m) (ng : ℚ) (ib : Bool) :
    (commitPhase s ng ib).state.stepModified = s.state.stepModified ∧
    (commitPhase s ng ib).state.stepInvalid = s.state.stepInvalid := by
  unfold commitPhase gtolFlag ftolFlag commitVals
  split
  · split <;> split <;> exact ⟨rfl, rfl⟩
  · exact ⟨rfl, rfl⟩

theorem modinv_stepFinish {n m : ℕ} (s0 : OptState n m) (nh ng : ℚ)
    (d ib ssm : Bool) :
    ((stepFinish s0 nh ng d ib ssm).1).state.stepModified = s0.state.stepModified ∧
    ((stepFinish s0 nh ng d ib ssm).1).state.stepInvalid = s0.state.stepInvalid := by
  unfold stepFinish
  split
  · exact ⟨rfl, rfl⟩
  · have h1 := modinv_acceptFlag
      (switchPhase (commitPhase (updateB (updateY s0)) ng ib) nh ssm) ib
    have h2 := modinv_commitPhase (updateB (updateY s0)) ng ib
    rw [state_switchPhase] at h1
    rw [state_updateB, state_updateY] at h2
    exact ⟨h1.1.trans h2.1, h1.2.trans h2.2⟩

theorem modinv_bfgsDelta {n m : ℕ} (s : OptState n m) (nh : ℚ) :
    ((bfgsDelta s nh).1).state.stepModified = s.state.stepModified ∧
    ((bfgsDelta s nh).1).state.stepInvalid = s.state.stepInvalid := by
  unfold bfgsDelta
  split
  · split
    · exact ⟨rfl, rfl⟩
    · split
      · exact modinv_checkStep _ _ _
      · exact ⟨rfl, rfl⟩
  · exact modinv_checkStep _ _ _

theorem modinv_stepEval2 {n m : ℕ} (s : OptState n m) (ng nh : ℚ) (d : Bool) :
    ((stepEval2 s ng nh d).1).state.stepModified = s.state.stepModified ∧
    ((stepEval2 s ng nh d).1).state.stepInvalid = s.state.stepInvalid := by
  unfold stepEval2
  split
  · split
    · exact modinv_bfgsDelta _ _
    · have h1 := modinv_stepFinish ((bfgsDelta s nh).1) nh ng d
        (bfgsBetter s ng) (decide (ng ≥ s.normInfG))
      have h2 := modinv_bfgsDelta s nh
      exact ⟨h1.1.trans h2.1, h1.2.trans h2.2⟩
  · split
    · have h1 := modinv_stepFinish ((lmAccept s ng).1) nh ng d true (lmAccept s ng).2
      rw [state_lmAccept] at h1
      exact h1
    · have h1 := modinv_stepFinish (lmReject s) nh ng d false
        (decide ((lmReject s).nu ≥ 32))
      rw [state_lmReject] at h1
      exact h1

theorem modinv_stepEval {n m : ℕ} (obj : Objective n m) (s : OptState n m)
    (nh : ℚ) (d : Bool) :
    ((stepEval obj s nh d).1).state.stepModified = s.state.stepModified ∧
    ((stepEval obj s nh d).1).state.stepInvalid = s.state.stepInvalid := by
  unfold stepEval
  have h := modinv_stepEval2 (preEval obj s d) (preNg obj s d) nh d
  rw [state_preEval] at h
  exact h

theorem flags_vetInput_chain {n m : ℕ} (obj : Objective n m) (solve : LinSolver n)
    (s : OptState n m) :
    (vetInput obj (clipState (solvedState solve s)
      (norm2 (solvedState solve s).h))).state = s.state := by
  rw [state_vetInput, state_clipState, state_solvedState]

/-- C10: the `STEP_MODIFIED` and `STEP_INVALID` flags are not mutually
exclusive across steps.  Past the minimum-step guard: a `MODIFIED` proposal
sets `STEP_MODIFIED` and leaves any earlier `STEP_INVALID` exactly as it was;
an `INVALID` proposal sets `STEP_INVALID` and leaves any earlier
`STEP_MODIFIED`; only a `VALID` proposal clears both.  Concretely, after a
`MODIFIED` step followed by an `INVALID` step both flags are set at once in
the returned state. -/
theorem mod_inv_not_exclusive {n m : ℕ} (obj : Objective n m) (solve : LinSolver n)
    (s : OptState n m)
    (hGuard : norm2 (solvedState solve s).h >
      s.ctrl.minStep * (norm2 s.x + s.ctrl.minStep)) :
    ((vetVerdict obj (clipState (solvedState solve s)
        (norm2 (solvedState solve s).h))).1 = .MODIFIED →
      (step obj solve s).state.stepModified = true ∧
      (step obj solve s).state.stepInvalid = s.state.stepInvalid) ∧
    ((vetVerdict obj (clipState (solvedState solve s)
        (norm2 (solvedState solve s).h))).1 = .INVALID →
      (step obj solve s).state.stepInvalid = true ∧
      (step obj solve s).state.stepModified = s.state.stepModified) ∧
    ((vetVerdict obj (clipState (solvedState solve s)
        (norm2 (solvedState solve s).h))).1 = .VALID →
      (step obj solve s).state.stepModified = false ∧
      (step obj solve s).state.stepInvalid = false) ∧
    (sM2.state.stepModified = true ∧ sM2.state.stepInvalid = true) := by
  have hGuard' : norm2 (solvedState solve s).h >
      (solvedState solve s).ctrl.minStep *
        (norm2 (solvedState solve s).x + (solvedState solve s).ctrl.minStep) := hGuard
  have hT := flags_vetInput_chain obj solve s
  have hstep : ∀ k, (vetVerdict obj (clipState (solvedState solve s)
        (norm2 (solvedState solve s).h))).1 = k →
      step obj solve s = (vetPhase obj
        (vetInput obj (clipState (solvedState solve s) (norm2 (solvedState solve s).h)))
        (norm2 (solvedState solve s).h) k).1 := by
    intro k hk
    simp only [step]
    unfold stepTrace
    rw [checkStep_pass .FAILURE_MINSTEP hGuard']
    rw [if_neg (show ¬ ((solvedState solve s, true).2 = false) by simp)]
    rw [hk]
  refine ⟨?_, ?_, ?_, ?_, ?_⟩
  · intro hk
    rw [hstep _ hk, vetPhase_MODIFIED]
    split
    · have h := modinv_checkStep
        (modState (vetInput obj (clipState (solvedState solve s)
          (norm2 (solvedState solve s).h))))
        (norm2 (modState (vetInput obj (clipState (solvedState solve s)
          (norm2 (solvedState solve s).h)))).h) .FAILURE_MINSTEP
      refine ⟨h.1.trans rfl, h.2.trans ?_⟩
      have hr : (modState (vetInput obj (clipState (solvedState solve s)
          (norm2 (solvedState solve s).h)))).state.stepInvalid
          = (vetInput obj (clipState (solvedState solve s)
            (norm2 (solvedState solve s).h))).state.stepInvalid := rfl
      rw [hr, hT]
    · have h := modinv_stepEval obj
        (modState (vetInput obj (clipState (solvedState solve s)
          (norm2 (solvedState solve s).h))))
        (norm2 (modState (vetInput obj (clipState (solvedState solve s)
          (norm2 (solvedState solve s).h)))).h) true
      refine ⟨h.1.trans rfl, h.2.trans ?_⟩
      have hr : (modState (vetInput obj (clipState (solvedState solve s)
          (norm2 (solvedState solve s).h)))).state.stepInvalid
          = (vetInput obj (clipState (solvedState solve s)
            (norm2 (solvedState solve s).h))).state.stepInvalid := rfl
      rw [hr, hT]
  · intro hk
    rw [hstep _ hk, vetPhase_INVALID]
    have h := modinv_stepEval obj
      (invState (vetInput obj (clipState (solvedState solve s)
        (norm2 (solvedState solve s).h))))
      (norm2 (solvedState solve s).h) false
    refine ⟨h.2.trans rfl, h.1.trans ?_⟩
    have hr : (invState (vetInput obj (clipState (solvedState solve s)
        (norm2 (solvedState solve s).h)))).state.stepModified
        = (vetInput obj (clipState (solvedState solve s)
          (norm2 (solvedState solve s).h))).state.stepModified := rfl
    rw [hr, hT]
  · intro hk
    rw [hstep _ hk, vetPhase_VALID]
    have h := modinv_stepEval obj
      (validState (vetInput obj (clipState (solvedState solve s)
        (norm2 (solvedState solve s).h))))
      (norm2 (solvedState solve s).h) true
    exact ⟨h.1.trans rfl, h.2.trans rfl⟩
  · with_unfolding_all rfl
  · with_unfolding_all rfl

/-- C10 witness: the theorem applied to `sM1` (which carries `STEP_MODIFIED`
from its first step) with the concrete `INVALID` second verdict. -/
theorem mod_inv_not_exclusive_witness :
    (step objModThenInvalid solveExact1 sM1).state.stepInvalid = true ∧
    (step objModThenInvalid solveExact1 sM1).state.stepModified
      = sM1.state.stepModified := by
  have h := mod_inv_not_exclusive objModThenInvalid solveExact1 sM1
    (by with_unfolding_all decide)
  exact h.2.1 (by with_unfolding_all rfl)

theorem y_updateY {n m : ℕ} (t : OptState n m) : (updateY t).y = yFormula t := rfl

theorem h_updateY {n m : ℕ} (t : OptState n m) : (updateY t).h = t.h := rfl

theorem B_updateY {n m : ℕ} (t : OptState n m) : (updateY t).B = t.B := rfl

theorem JNew_updateY {n m : ℕ} (t : OptState n m) : (updateY t).JNew = t.JNew := rfl

theorem gNew_updateY {n m : ℕ} (t : OptState n m) : (updateY t).gNew = t.gNew := rfl

theorem y_updateB {n m : ℕ} (t : OptState n m) : (updateB t).y = t.y := by
  unfold updateB; split <;> rfl

theorem h_updateB {n m : ℕ} (t : OptState n m) : (updateB t).h = t.h := by
  unfold updateB; split <;> rfl

theorem JNew_updateB {n m : ℕ} (t : OptState n m) : (updateB t).JNew = t.JNew := by
  unfold updateB; split <;> rfl

theorem gNew_updateB {n m : ℕ} (t : OptState n m) : (updateB t).gNew = t.gNew := by
  unfold updateB; split <;> rfl

theorem B_updateB {n m : ℕ} (t : OptState n m) :
    (updateB t).B = (if t.h ⬝ᵥ t.y > 0 then bfgsUpdate t.B t.h t.y else t.B) := by
  unfold updateB; split <;> simp_all

theorem y_commitPhase {n m : ℕ} (t : OptState n m) (ng : ℚ) (ib : Bool) :
    (commitPhase t ng ib).y = t.y := by
  unfold commitPhase gtolFlag ftolFlag commitVals
  split
  · split <;> split <;> rfl
  · rfl

theorem h_commitPhase {n m : ℕ} (t : OptState n m) (ng : ℚ) (ib : Bool) :
    (commitPhase t ng ib).h = t.h := by
  unfold commitPhase gtolFlag ftolFlag commitVals
  split
  · split <;> split <;> rfl
  · rfl

theorem B_commitPhase {n m : ℕ} (t : OptState n m) (ng : ℚ) (ib : Bool) :
    (commitPhase t ng ib).B = t.B := by
  unfold commitPhase gtolFlag ftolFlag commitVals
  split
  · split <;> split <;> rfl
  · rfl

theorem JNew_commitPhase {n m : ℕ} (t : OptState n m) (ng : ℚ) (ib : Bool) :
    (commitPhase t ng ib).JNew = t.JNew := by
  unfold commitPhase gtolFlag ftolFlag commitVals
  split
  · split <;> split <;> rfl
  · rfl

theorem gNew_commitPhase {n m : ℕ} (t : OptState n m) (ng : ℚ) (ib : Bool) :
    (commitPhase t ng ib).gNew = t.gNew := by
  unfold commitPhase gtolFlag ftolFlag commitVals
  split
  · split <;> split <;> rfl
  · rfl

theorem y_switchPhase {n m : ℕ} (t : OptState n m) (nh : ℚ) (b : Bool) :
    (switchPhase t nh b).y = t.y := by
  unfold switchPhase
  split
  · split <;> rfl
  · rfl

theorem h_switchPhase {n m : ℕ} (t : OptState n m) (nh : ℚ) (b : Bool) :
    (switchPhase t nh b).h = t.h := by
  unfold switchPhase
  split
  · split <;> rfl
  · rfl

theorem B_switchPhase {n m : ℕ} (t : OptState n m) (nh : ℚ) (b : Bool) :
    (switchPhase t nh b).B = t.B := by
  unfold switchPhase
  split
  · split <;> rfl
  · rfl

theorem JNew_switchPhase {n m : ℕ} (t : OptState n m) (nh : ℚ) (b : Bool) :
    (switchPhase t nh b).JNew = t.JNew := by
  unfold switchPhase
  split
  · split <;> rfl
  · rfl

theorem gNew_switchPhase {n m : ℕ} (t : OptState n m) (nh : ℚ) (b : Bool) :
    (switchPhase t nh b).gNew = t.gNew := by
  unfold switchPhase
  split
  · split <;> rfl
  · rfl

theorem y_acceptFlag {n m : ℕ} (t : OptState n m) (ib : Bool) :
    (acceptFlag t ib).y = t.y := by
  unfold acceptFlag; split <;> rfl

theorem h_acceptFlag {n m : ℕ} (t : OptState n m) (ib : Bool) :
    (acceptFlag t ib).h = t.h := by
  unfold acceptFlag; split <;> rfl

theorem B_acceptFlag {n m : ℕ} (t : OptState n m) (ib : Bool) :
    (acceptFlag t ib).B = t.B := by
  unfold acceptFlag; split <;> rfl

theorem JNew_acceptFlag {n m : ℕ} (t : OptState n m) (ib : Bool) :
    (acceptFlag t ib).JNew = t.JNew := by
  unfold acceptFlag; split <;> rfl

theorem gNew_acceptFlag {n m : ℕ} (t : OptState n m) (ib : Bool) :
    (acceptFlag t ib).gNew = t.gNew := by
  unfold acceptFlag; split <;> rfl

/-- The `y` / `B` bookkeeping of an executed tail (lines 219-228), stated on
the state entering `stepFinish`. -/
theorem yB_stepFinish {n m : ℕ} (t : OptState n m) (nh ng : ℚ) (ib ssm : Bool) :
    ((stepFinish t nh ng true ib ssm).1).y = yFormula t ∧
    ((stepFinish t nh ng true ib ssm).1).h = t.h ∧
    ((stepFinish t nh ng true ib ssm).1).JNew = t.JNew ∧
    ((stepFinish t nh ng true ib ssm).1).gNew = t.gNew ∧
    ((stepFinish t nh ng true ib ssm).1).B =
      (if t.h ⬝ᵥ yFormula t > 0 then bfgsUpdate t.B t.h (yFormula t) else t.B) := by
  have hbody : (stepFinish t nh ng true ib ssm).1 =
      acceptFlag (switchPhase (commitPhase (updateB (updateY t)) ng ib) nh ssm) ib := rfl
  rw [hbody]
  refine ⟨?_, ?_, ?_, ?_, ?_⟩
  · rw [y_acceptFlag, y_switchPhase, y_commitPhase, y_updateB, y_updateY]
  · rw [h_acceptFlag, h_switchPhase, h_commitPhase, h_updateB, h_updateY]
  · rw [JNew_acceptFlag, JNew_switchPhase, JNew_commitPhase, JNew_updateB, JNew_updateY]
  · rw [gNew_acceptFlag, gNew_switchPhase, gNew_commitPhase, gNew_updateB, gNew_updateY]
  · rw [B_acceptFlag, B_switchPhase, B_commitPhase, B_updateB, h_updateY, y_updateY,
        B_updateY]

theorem g_checkStep {n m : ℕ} (s : OptState n m) (q : ℚ) (b : TermFlag) :
    ((checkStep s q b).1).g = s.g := by
  unfold checkStep orFlag
  cases b <;> split <;> rfl

theorem B_checkStep {n m : ℕ} (s : OptState n m) (q : ℚ) (b : TermFlag) :
    ((checkStep s q b).1).B = s.B := by
  unfold checkStep orFlag
  cases b <;> split <;> rfl

theorem g_bfgsDelta {n m : ℕ} (s : OptState n m) (nh : ℚ) :
    ((bfgsDelta s nh).1).g = s.g := by
  unfold bfgsDelta
  split
  · split
    · rfl
    · split
      · rw [g_checkStep]
      · rfl
  · rw [g_checkStep]

theorem B_bfgsDelta {n m : ℕ} (s : OptState n m) (nh : ℚ) :
    ((bfgsDelta s nh).1).B = s.B := by
  unfold bfgsDelta
  split
  · split
    · rfl
    · split
      · rw [B_checkStep]
      · rfl
  · rw [B_checkStep]

theorem g_lmAccept {n m : ℕ} (s : OptState n m) (ng : ℚ) :
    (((lmAccept s ng).1)).g = s.g := by
  unfold lmAccept; split <;> rfl

theorem B_lmAccept {n m : ℕ} (s : OptState n m) (ng : ℚ) :
    (((lmAccept s ng).1)).B = s.B := by
  unfold lmAccept; split <;> rfl

theorem g_lmReject {n m : ℕ} (s : OptState n m) : (lmReject s).g = s.g := rfl

theorem B_lmReject {n m : ℕ} (s : OptState n m) : (lmReject s).B = s.B := rfl

theorem g_evalPhase {n m : ℕ} (obj : Objective n m) (s : OptState n m) (d : Bool) :
    (evalPhase obj s d).g = s.g := by
  unfold evalPhase; split <;> rfl

theorem g_gnewPhase {n m : ℕ} (s : OptState n m) (c : Bool) :
    (gnewPhase s c).g = s.g := by
  unfold gnewPhase; split <;> rfl

theorem g_preEval {n m : ℕ} (obj : Objective n m) (s : OptState n m) (d : Bool) :
    (preEval obj s d).g = s.g := by
  unfold preEval; rw [g_gnewPhase, g_evalPhase]

theorem B_evalPhase {n m : ℕ} (obj : Objective n m) (s : OptState n m) (d : Bool) :
    (evalPhase obj s d).B = s.B := by
  unfold evalPhase; split <;> rfl

theorem B_gnewPhase {n m : ℕ} (s : OptState n m) (c : Bool) :
    (gnewPhase s c).B = s.B := by
  unfold gnewPhase; split <;> rfl

theorem B_preEval {n m : ℕ} (obj : Objective n m) (s : OptState n m) (d : Bool) :
    (preEval obj s d).B = s.B := by
  unfold preEval; rw [B_gnewPhase, B_evalPhase]

/-- The claim-C6 shape of the tail bookkeeping, relative to reference values
of `g` and `B`. -/
theorem yB_final_form {n m : ℕ} (t : OptState n m) (nh ng : ℚ) (ib ssm : Bool)
    (g0 : Vec n) (B0 : Mat n n) (hg : t.g = g0) (hB : t.B = B0) :
    ((stepFinish t nh ng true ib ssm).1).y =
      ((stepFinish t nh ng true ib ssm).1).JNewᵀ *ᵥ
        (((stepFinish t nh ng true ib ssm).1).JNew *ᵥ
          ((stepFinish t nh ng true ib ssm).1).h) +
      (((stepFinish t nh ng true ib ssm).1).gNew - g0) ∧
    (((stepFinish t nh ng true ib ssm).1).h ⬝ᵥ ((stepFinish t nh ng true ib ssm).1).y > 0 →
      ((stepFinish t nh ng true ib ssm).1).B =
        bfgsUpdate B0 ((stepFinish t nh ng true ib ssm).1).h
          ((stepFinish t nh ng true ib ssm).1).y) ∧
    (¬ (((stepFinish t nh ng true ib ssm).1).h ⬝ᵥ ((stepFinish t nh ng true ib ssm).1).y > 0) →
      ((stepFinish t nh ng true ib ssm).1).B = B0) := by
  subst hg hB
  obtain ⟨h1, h2, h3, h4, h5⟩ := yB_stepFinish t nh ng ib ssm
  refine ⟨?_, ?_, ?_⟩
  · rw [h1, h2, h3, h4]
    rfl
  · intro hpos
    rw [h2, h1] at hpos
    rw [h5, if_pos hpos, h2, h1]
  · intro hneg
    rw [h2, h1] at hneg
    rw [h5, if_neg hneg]

theorem yB_stepEval2 {n m : ℕ} (s : OptState n m) (ng nh : ℚ) (d : Bool)
    (hc : (stepEval2 s ng nh d).2.1 = .completed) :
    bfgsUpdateSpec s.g s.B ((stepEval2 s ng nh d).1) := by
  rcases hm : s.method with _ | _
  · rw [stepEval2_LM ng nh d hm] at hc ⊢
    by_cases hlt : s.QNew < (s.Q : WithTop ℚ)
    · rw [if_pos hlt] at hc ⊢
      rw [exit_stepFinish] at hc
      cases d
      · simp at hc
      · exact yB_final_form _ nh ng true ((lmAccept s ng).2) s.g s.B
          (g_lmAccept s ng) (B_lmAccept s ng)
    · rw [if_neg hlt] at hc ⊢
      rw [exit_stepFinish] at hc
      cases d
      · simp at hc
      · exact yB_final_form _ nh ng false _ s.g s.B (g_lmReject s) (B_lmReject s)
  · rw [stepEval2_BFGS ng nh d hm] at hc ⊢
    by_cases hcc : (bfgsDelta s nh).2 = false
    · rw [if_pos hcc] at hc
      simp at hc
    · rw [if_neg hcc] at hc ⊢
      rw [exit_stepFinish] at hc
      cases d
      · simp at hc
      · exact yB_final_form _ nh ng _ _ s.g s.B (g_bfgsDelta s nh) (B_bfgsDelta s nh)

theorem yB_stepEval {n m : ℕ} (obj : Objective n m) (s : OptState n m)
    (nh : ℚ) (d : Bool)
    (hc : (stepEval obj s nh d).2.1 = .completed) :
    bfgsUpdateSpec s.g s.B ((stepEval obj s nh d).1) := by
  have h := yB_stepEval2 (preEval obj s d) (preNg obj s d) nh d hc
  rw [g_preEval, B_preEval] at h
  exact h

theorem g_modState {n m : ℕ} (s : OptState n m) : (modState s).g = s.g := rfl

theorem g_invState {n m : ℕ} (s : OptState n m) : (invState s).g = s.g := rfl

theorem g_validState {n m : ℕ} (s : OptState n m) : (validState s).g = s.g := rfl

theorem B_modState {n m : ℕ} (s : OptState n m) : (modState s).B = s.B := rfl

theorem B_invState {n m : ℕ} (s : OptState n m) : (invState s).B = s.B := rfl

theorem B_validState {n m : ℕ} (s : OptState n m) : (validState s).B = s.B := rfl

theorem g_solvedState {n m : ℕ} (solve : LinSolver n) (s : OptState n m) :
    (solvedState solve s).g = s.g := rfl

theorem B_solvedState {n m : ℕ} (solve : LinSolver n) (s : OptState n m) :
    (solvedState solve s).B = s.B := rfl

theorem g_clipState {n m : ℕ} (s : OptState n m) (nh : ℚ) :
    (clipState s nh).g = s.g := by
  unfold clipState; split <;> rfl

theorem B_clipState {n m : ℕ} (s : OptState n m) (nh : ℚ) :
    (clipState s nh).B = s.B := by
  unfold clipState; split <;> rfl

theorem yB_vetPhase {n m : ℕ} (obj : Objective n m) (s : OptState n m)
    (nh : ℚ) (k : StepResult)
    (hc : (vetPhase obj s nh k).2.1 = .completed) :
    bfgsUpdateSpec s.g s.B ((vetPhase obj s nh k).1) := by
  cases k
  · rw [vetPhase_INVALID] at hc ⊢
    have h := yB_stepEval obj (invState s) nh false hc
    rw [g_invState, B_invState] at h
    exact h
  · rw [vetPhase_VALID] at hc ⊢
    have h := yB_stepEval obj (validState s) nh true hc
    rw [g_validState, B_validState] at h
    exact h
  · rw [vetPhase_MODIFIED] at hc ⊢
    split at hc
    · simp at hc
    · rw [if_neg (by assumption)]
      have h := yB_stepEval obj (modState s) (norm2 (modState s).h) true hc
      rw [g_modState, B_modState] at h
      exact h

/-- C6 (amended): on every `step()` call that runs to completion (which
requires an evaluated proposal — `INVALID` steps exit at the `!doStep`
return), the update vector used by the engine is
`y = JNewᵀ(JNew h) + (gNew - g)` with the pre-step `g`, and `B` receives the
rank-2 update exactly when `hᵀy > 0` — in both the LM and BFGS branches, on
accepted and rejected steps alike.  An evaluated step that exits early
through the trust-radius guard (`FAILURE_MINTRUST`) skips the update, which
the original claim overlooks. -/
theorem bfgs_curvature_update {n m : ℕ} (obj : Objective n m) (solve : LinSolver n)
    (s : OptState n m) (hc : (stepTrace obj solve s).2.1 = .completed) :
    bfgsUpdateSpec s.g s.B (step obj solve s) := by
  simp only [step]
  unfold stepTrace at hc ⊢
  split at hc
  · simp at hc
  · rw [if_neg (by assumption)]
    have h := yB_vetPhase obj
      (vetInput obj (clipState (solvedState solve s) (norm2 (solvedState solve s).h)))
      (norm2 (solvedState solve s).h)
      (vetVerdict obj (clipState (solvedState solve s) (norm2 (solvedState solve s).h))).1
      hc
    rw [show (vetInput obj (clipState (solvedState solve s)
          (norm2 (solvedState solve s).h))).g = s.g by
        rw [show (vetInput obj (clipState (solvedState solve s)
          (norm2 (solvedState solve s).h))).g = (clipState (solvedState solve s)
          (norm2 (solvedState solve s).h)).g from rfl, g_clipState, g_solvedState]] at h
    rw [show (vetInput obj (clipState (solvedState solve s)
          (norm2 (solvedState solve s).h))).B = s.B by
        rw [show (vetInput obj (clipState (solvedState solve s)
          (norm2 (solvedState solve s).h))).B = (clipState (solvedState solve s)
          (norm2 (solvedState solve s).h)).B from rfl, B_clipState, B_solvedState]] at h
    exact h

set_option maxRecDepth 100000 in
/-- C6 counterexample: the claim as stated fails on evaluated steps that exit
early through the minimum-trust guard.  The step out of `sS4` is evaluated
(`tryStep` returns `VALID`, `QNew = 50`), the curvature condition on the
claimed update vector holds (`hᵀy = 181/400 > 0`), yet the engine returns at
the `FAILURE_MINTRUST` guard before line 221: the stored `y` is not the
claimed vector and `B` is left untouched instead of receiving the rank-2
update. -/
theorem bfgs_curvature_update_counterexample :
    (vetVerdict objStuck (clipState (solvedState (solveConst (1 / 4)) sS4)
      (norm2 (solvedState (solveConst (1 / 4)) sS4).h))).1 = .VALID ∧
    sS5.QNew = ((50 : ℚ) : WithTop ℚ) ∧
    (stepTrace objStuck (solveConst (1 / 4)) sS4).2.1 = .mintrust ∧
    sS5.h ⬝ᵥ (sS5.JNewᵀ *ᵥ (sS5.JNew *ᵥ sS5.h) + (sS5.gNew - sS4.g)) > 0 ∧
    ¬ (sS5.y = sS5.JNewᵀ *ᵥ (sS5.JNew *ᵥ sS5.h) + (sS5.gNew - sS4.g)) ∧
    sS5.B = sS4.B ∧
    ¬ (sS5.B = bfgsUpdate sS4.B sS5.h
        (sS5.JNewᵀ *ᵥ (sS5.JNew *ᵥ sS5.h) + (sS5.gNew - sS4.g))) := by
  refine ⟨?_, ?_, ?_, ?_, ?_, ?_, ?_⟩
  · with_unfolding_all rfl
  · with_unfolding_all rfl
  · with_unfolding_all rfl
  · with_unfolding_all decide
  · with_unfolding_all decide
  · with_unfolding_all decide
  · with_unfolding_all decide

/-- C6 witness: the amended theorem applied to the completed first step of
the `objLine` trace. -/
theorem bfgs_curvature_update_witness :
    bfgsUpdateSpec sL0.g sL0.B (step objLine solveExact1 sL0) :=
  bfgs_curvature_update objLine solveExact1 sL0 (by with_unfolding_all rfl)

/-! ### Claim C7: symmetry and positive definiteness -/

theorem isSymm_addDiag {n : ℕ} {M : Mat n n} (hM : M.IsSymm) (c : ℚ) :
    (addDiag M c).IsSymm := by
  unfold addDiag Matrix.IsSymm
  rw [Matrix.transpose_add, Matrix.transpose_smul, Matrix.transpose_one, hM]

theorem isSymm_gram {p q : ℕ} (J : Mat p q) : (Jᵀ * J).IsSymm := by
  unfold Matrix.IsSymm
  rw [Matrix.transpose_mul, Matrix.transpose_transpose]

theorem vecMulVec_transpose' {k : ℕ} (a b : Vec k) :
    (vecMulVec a b)ᵀ = vecMulVec b a := by
  ext i j
  simp [Matrix.vecMulVec_apply, mul_comm]

theorem isSymm_bfgsUpdate {n : ℕ} {B : Mat n n} (hB : B.IsSymm) (h y : Vec n) :
    (bfgsUpdate B h y).IsSymm := by
  unfold bfgsUpdate Matrix.IsSymm
  rw [Matrix.transpose_add, Matrix.transpose_sub, Matrix.transpose_smul,
      Matrix.transpose_smul, vecMulVec_transpose', vecMulVec_transpose', hB]

theorem A_updateY {n m : ℕ} (t : OptState n m) : (updateY t).A = t.A := rfl

theorem A_updateB {n m : ℕ} (t : OptState n m) : (updateB t).A = t.A := by
  unfold updateB; split <;> rfl

theorem A_commitPhase {n m : ℕ} (t : OptState n m) (ng : ℚ) (ib : Bool) :
    (commitPhase t ng ib).A = t.A := by
  unfold commitPhase gtolFlag ftolFlag commitVals
  split
  · split <;> split <;> rfl
  · rfl

theorem A_acceptFlag {n m : ℕ} (t : OptState n m) (ib : Bool) :
    (acceptFlag t ib).A = t.A := by
  unfold acceptFlag; split <;> rfl

theorem A_checkStep {n m : ℕ} (s : OptState n m) (q : ℚ) (b : TermFlag) :
    ((checkStep s q b).1).A = s.A := by
  unfold checkStep orFlag
  cases b <;> split <;> rfl

theorem A_bfgsDelta {n m : ℕ} (s : OptState n m) (nh : ℚ) :
    ((bfgsDelta s nh).1).A = s.A := by
  unfold bfgsDelta
  split
  · split
    · rfl
    · split
      · rw [A_checkStep]
      · rfl
  · rw [A_checkStep]

theorem A_evalPhase {n m : ℕ} (obj : Objective n m) (s : OptState n m) (d : Bool) :
    (evalPhase obj s d).A = s.A := by
  unfold evalPhase; split <;> rfl

theorem A_gnewPhase {n m : ℕ} (s : OptState n m) (c : Bool) :
    (gnewPhase s c).A = s.A := by
  unfold gnewPhase; split <;> rfl

theorem A_preEval {n m : ℕ} (obj : Objective n m) (s : OptState n m) (d : Bool) :
    (preEval obj s d).A = s.A := by
  unfold preEval; rw [A_gnewPhase, A_evalPhase]

theorem isSymm_A_switchPhase {n m : ℕ} {t : OptState n m} (nh : ℚ) (b : Bool)
    (hA : t.A.IsSymm) : (switchPhase t nh b).A.IsSymm := by
  unfold switchPhase
  split
  · split
    · exact isSymm_addDiag (isSymm_gram t.J) t.mu
    · exact hA
  · exact hA

theorem isSymm_A_lmAccept {n m : ℕ} {t : OptState n m} (ng : ℚ)
    (hA : t.A.IsSymm) : (((lmAccept t ng).1)).A.IsSymm := by
  unfold lmAccept
  split
  · exact isSymm_addDiag (isSymm_gram t.JNew) (lmMu t)
  · exact hA

theorem isSymm_A_lmReject {n m : ℕ} {t : OptState n m} (hA : t.A.IsSymm) :
    (lmReject t).A.IsSymm :=
  isSymm_addDiag hA _

theorem isSymm_B_updateB {n m : ℕ} {t : OptState n m} (hB : t.B.IsSymm) :
    (updateB t).B.IsSymm := by
  rw [B_updateB]
  split
  · exact isSymm_bfgsUpdate hB _ _
  · exact hB

/-- Symmetry of `A` and `B` through the tail of the step. -/
theorem isSymm_stepFinish {n m : ℕ} {t : OptState n m} (nh ng : ℚ)
    (d ib ssm : Bool) (hA : t.A.IsSymm) (hB : t.B.IsSymm) :
    ((stepFinish t nh ng d ib ssm).1).A.IsSymm ∧
    ((stepFinish t nh ng d ib ssm).1).B.IsSymm := by
  unfold stepFinish
  split
  · exact ⟨hA, hB⟩
  · constructor
    · rw [A_acceptFlag]
      refine isSymm_A_switchPhase nh ssm ?_
      rw [A_commitPhase, A_updateB, A_updateY]
      exact hA
    · rw [B_acceptFlag, B_switchPhase, B_commitPhase]
      refine isSymm_B_updateB ?_
      rw [B_updateY]
      exact hB

theorem isSymm_stepEval2 {n m : ℕ} {s : OptState n m} (ng nh : ℚ) (d : Bool)
    (hA : s.A.IsSymm) (hB : s.B.IsSymm) :
    ((stepEval2 s ng nh d).1).A.IsSymm ∧ ((stepEval2 s ng nh d).1).B.IsSymm := by
  unfold stepEval2
  split
  · split
    · rw [A_bfgsDelta, B_bfgsDelta]
      exact ⟨hA, hB⟩
    · exact isSymm_stepFinish nh ng d _ _
        (by rw [A_bfgsDelta]; exact hA) (by rw [B_bfgsDelta]; exact hB)
  · split
    · exact isSymm_stepFinish nh ng d _ _
        (isSymm_A_lmAccept ng hA) (by rw [B_lmAccept]; exact hB)
    · exact isSymm_stepFinish nh ng d _ _
        (isSymm_A_lmReject hA) (by rw [B_lmReject]; exact hB)

theorem A_modState {n m : ℕ} (s : OptState n m) : (modState s).A = s.A := rfl

theorem A_invState {n m : ℕ} (s : OptState n m) : (invState s).A = s.A := rfl

theorem A_validState {n m : ℕ} (s : OptState n m) : (validState s).A = s.A := rfl

theorem A_clipState {n m : ℕ} (s : OptState n m) (nh : ℚ) :
    (clipState s nh).A = s.A := by
  unfold clipState; split <;> rfl

theorem A_vetInput {n m : ℕ} (obj : Objective n m) (s : OptState n m) :
    (vetInput obj s).A = s.A := rfl

theorem B_vetInput {n m : ℕ} (obj : Objective n m) (s : OptState n m) :
    (vetInput obj s).B = s.B := rfl

theorem A_solvedState {n m : ℕ} (solve : LinSolver n) (s : OptState n m) :
    (solvedState solve s).A = s.A := rfl

theorem isSymm_step {n m : ℕ} (obj : Objective n m) (solve : LinSolver n)
    (s : OptState n m) (hA : s.A.IsSymm) (hB : s.B.IsSymm) :
    (step obj solve s).A.IsSymm ∧ (step obj solve s).B.IsSymm := by
  have hAB : ∀ (t : OptState n m), t.A = s.A → t.B = s.B → ∀ (nh : ℚ) (d : Bool),
      ((stepEval obj t nh d).1).A.IsSymm ∧ ((stepEval obj t nh d).1).B.IsSymm := by
    intro t htA htB nh d
    unfold stepEval
    exact isSymm_stepEval2 _ _ _
      (by rw [A_preEval, htA]; exact hA) (by rw [B_preEval, htB]; exact hB)
  have hTA : (vetInput obj (clipState (solvedState solve s)
      (norm2 (solvedState solve s).h))).A = s.A := by
    rw [A_vetInput, A_clipState, A_solvedState]
  have hTB : (vetInput obj (clipState (solvedState solve s)
      (norm2 (solvedState solve s).h))).B = s.B := by
    rw [B_vetInput, B_clipState, B_solvedState]
  simp only [step]
  unfold stepTrace
  split
  · constructor
    · simp only [A_checkStep, A_solvedState]
      exact hA
    · simp only [B_checkStep, B_solvedState]
      exact hB
  · rcases hk : (vetVerdict obj (clipState (solvedState solve s)
        (norm2 (solvedState solve s).h))).1 with _ | _ | _
    · rw [vetPhase_INVALID]
      exact hAB _ (by rw [A_invState, hTA]) (by rw [B_invState, hTB]) _ _
    · rw [vetPhase_VALID]
      exact hAB _ (by rw [A_validState, hTA]) (by rw [B_validState, hTB]) _ _
    · rw [vetPhase_MODIFIED]
      split
      · constructor
        · simp only [A_checkStep, A_modState]
          rw [hTA]
          exact hA
        · simp only [B_checkStep, B_modState]
          rw [hTB]
          exact hB
      · exact hAB _ (by rw [A_modState, hTA]) (by rw [B_modState, hTB]) _ _

theorem vecMulVec_mulVec' {k : ℕ} (a b z : Vec k) :
    (vecMulVec a b) *ᵥ z = (b ⬝ᵥ z) • a := by
  funext i
  simp only [Matrix.mulVec, Matrix.dotProduct, Matrix.vecMulVec_apply,
    Pi.smul_apply, smul_eq_mul]
  rw [Finset.sum_mul]
  refine Finset.sum_congr rfl fun j _ => ?_
  ring

theorem dot_mulVec_comm {k : ℕ} {B : Mat k k} (hB : B.IsSymm) (a b : Vec k) :
    a ⬝ᵥ (B *ᵥ b) = b ⬝ᵥ (B *ᵥ a) := by
  rw [Matrix.dotProduct_mulVec]
  rw [show a ᵥ* B = Bᵀ *ᵥ a from (Matrix.mulVec_transpose B a).symm]
  rw [hB]
  exact Matrix.dotProduct_comm _ _

/-- The BFGS rank-2 update preserves positive definiteness when the
curvature condition `hᵀy > 0` holds. -/
theorem bfgsUpdate_posDef {k : ℕ} {B : Mat k k} {h y : Vec k}
    (hB : isPosDef B) (hy : 0 < h ⬝ᵥ y) : isPosDef (bfgsUpdate B h y) := by
  obtain ⟨hBs, hBp⟩ := hB
  have hne : h ≠ 0 := by
    intro h0
    rw [h0] at hy
    simp at hy
  have hv : 0 < h ⬝ᵥ (B *ᵥ h) := hBp h hne
  have hvne : h ⬝ᵥ (B *ᵥ h) ≠ 0 := ne_of_gt hv
  have hyne : h ⬝ᵥ y ≠ 0 := ne_of_gt hy
  refine ⟨isSymm_bfgsUpdate hBs h y, ?_⟩
  intro z hz
  have hmain : z ⬝ᵥ (bfgsUpdate B h y *ᵥ z) =
      (z - ((z ⬝ᵥ (B *ᵥ h)) / (h ⬝ᵥ (B *ᵥ h))) • h) ⬝ᵥ
        (B *ᵥ (z - ((z ⬝ᵥ (B *ᵥ h)) / (h ⬝ᵥ (B *ᵥ h))) • h)) +
      (z ⬝ᵥ y) ^ 2 / (h ⬝ᵥ y) := by
    simp only [bfgsUpdate]
    rw [Matrix.add_mulVec, Matrix.sub_mulVec, Matrix.smul_mulVec_assoc,
        Matrix.smul_mulVec_assoc, vecMulVec_mulVec', vecMulVec_mulVec',
        Matrix.mulVec_sub, Matrix.mulVec_smul]
    simp only [Matrix.dotProduct_sub, Matrix.sub_dotProduct, Matrix.dotProduct_add,
      Matrix.add_dotProduct, Matrix.dotProduct_smul, Matrix.smul_dotProduct,
      smul_eq_mul]
    rw [dot_mulVec_comm hBs h z, Matrix.dotProduct_comm (B *ᵥ h) z,
        Matrix.dotProduct_comm y z]
    field_simp
    ring_nf
    simp
  rw [hmain]
  by_cases hw : z - ((z ⬝ᵥ (B *ᵥ h)) / (h ⬝ᵥ (B *ᵥ h))) • h = 0
  · rw [hw]
    simp only [Matrix.zero_dotProduct, zero_add]
    have hzt : z = ((z ⬝ᵥ (B *ᵥ h)) / (h ⬝ᵥ (B *ᵥ h))) • h := by
      have := sub_eq_zero.mp hw
      exact this
    have htne : (z ⬝ᵥ (B *ᵥ h)) / (h ⬝ᵥ (B *ᵥ h)) ≠ 0 := by
      intro ht0
      rw [ht0, zero_smul] at hzt
      exact hz hzt
    have hzy : z ⬝ᵥ y = ((z ⬝ᵥ (B *ᵥ h)) / (h ⬝ᵥ (B *ᵥ h))) * (h ⬝ᵥ y) := by
      conv_lhs => rw [hzt]
      rw [Matrix.smul_dotProduct, smul_eq_mul]
    have hne2 : z ⬝ᵥ y ≠ 0 := by
      rw [hzy]
      exact mul_ne_zero htne hyne
    refine div_pos ?_ hy
    exact pow_two_pos_of_ne_zero hne2
  · exact add_pos_of_pos_of_nonneg (hBp _ hw)
      (div_nonneg (sq_nonneg _) hy.le)

theorem isSymm_init {n m : ℕ} (obj : Objective n m) (ctrl : Control) (p : Vec n) :
    (init obj ctrl p).A.IsSymm ∧ (init obj ctrl p).B.IsSymm :=
  ⟨isSymm_addDiag (isSymm_gram _) _, Matrix.isSymm_one⟩

/-- C7: the stored matrices `A` and `B` are symmetric at construction and
remain symmetric (exactly, in this real-arithmetic model) after every
`step()`; and `B` stays positive definite whenever the rank-2 BFGS update is
applied, i.e. whenever the curvature condition `hᵀy > 0` holds on an
evaluated step, provided `B` was positive definite before. -/
theorem symmetric_and_posdef :
    (∀ (n m : ℕ) (obj : Objective n m) (ctrl : Control) (p : Vec n),
      (init obj ctrl p).A.IsSymm ∧ (init obj ctrl p).B.IsSymm) ∧
    (∀ (n m : ℕ) (obj : Objective n m) (solve : LinSolver n) (s : OptState n m),
      s.A.IsSymm → s.B.IsSymm →
      (step obj solve s).A.IsSymm ∧ (step obj solve s).B.IsSymm) ∧
    (∀ (k : ℕ) (B : Mat k k) (h y : Vec k),
      isPosDef B → 0 < h ⬝ᵥ y → isPosDef (bfgsUpdate B h y)) :=
  ⟨fun _ _ obj ctrl p => isSymm_init obj ctrl p,
   fun _ _ obj solve s hA hB => isSymm_step obj solve s hA hB,
   fun _ _ _ _ hB hy => bfgsUpdate_posDef hB hy⟩

theorem isPosDef_one1 : isPosDef (1 : Mat 1 1) := by
  constructor
  · exact Matrix.isSymm_one
  · intro z hz
    have hz0 : z 0 ≠ 0 := by
      intro h0
      exact hz (funext fun i => by
        rw [show i = 0 from Subsingleton.elim i 0]
        exact h0)
    have hzz : z ⬝ᵥ ((1 : Mat 1 1) *ᵥ z) = z 0 * z 0 := by
      rw [Matrix.one_mulVec]
      simp [Matrix.dotProduct, Fin.sum_univ_one]
    rw [hzz]
    exact mul_self_pos.mpr hz0

/-- C7 witness: the theorem applied to the fresh `objLine` optimizer, one
concrete step of it, and the 1×1 identity with `h = y = 1`. -/
theorem symmetric_and_posdef_witness :
    ((init objLine ctrlB p0).A.IsSymm ∧ (init objLine ctrlB p0).B.IsSymm) ∧
    ((step objLine solveExact1 sL0).A.IsSymm ∧ (step objLine solveExact1 sL0).B.IsSymm) ∧
    isPosDef (bfgsUpdate (1 : Mat 1 1) (fun _ => 1) (fun _ => 1)) := by
  refine ⟨symmetric_and_posdef.1 1 1 objLine ctrlB p0,
    symmetric_and_posdef.2.1 1 1 objLine solveExact1 sL0 ?_ ?_,
    symmetric_and_posdef.2.2 1 1 (fun _ => 1) (fun _ => 1) isPosDef_one1 ?_⟩
  · with_unfolding_all decide
  · with_unfolding_all decide
  · show (0 : ℚ) < (fun _ : Fin 1 => (1 : ℚ)) ⬝ᵥ (fun _ => 1)
    norm_num [Matrix.dotProduct, Fin.sum_univ_one]

theorem takeWhile_nil_of_false {p : ℚ → Bool} :
    ∀ (l : List ℚ), (∀ a ∈ l, p a = false) → l.takeWhile p = []
  | [], _ => rfl
  | a :: l, h =>
    List.takeWhile_cons_of_neg (by rw [h a (List.mem_cons_self a l)]; simp)

theorem eigDeflate_ones {n : ℕ} (hn : 0 < n) :
    eigDeflate hn (fun _ : Fin n => (1 : ℚ)) = 0 := by
  unfold eigDeflate
  rw [takeWhile_nil_of_false]
  · rfl
  · intro a ha
    rw [List.mem_ofFn] at ha
    obtain ⟨j, rfl⟩ := ha
    simp only [decide_eq_false_iff_not, not_lt]
    unfold eigThreshold epsMachine
    norm_num

/-- C8: the eigen-mode solver reports an effective rank between `0` and `n`,
and on the eigensolver output for the identity matrix (all eigenvalues `1`,
orthonormal `V`) it reports full rank and returns `h = -g`. -/
theorem eig_rank_bound_and_identity :
    (∀ (n : ℕ) (hn : 0 < n) (eigval : Fin n → ℚ) (V : Mat n n) (g : Vec n),
      (solveEig hn eigval V g).2 ≤ n) ∧
    (∀ (n : ℕ) (hn : 0 < n) (V : Mat n n) (g : Vec n), Vᵀ * V = 1 →
      (solveEig hn (fun _ => 1) V g).2 = n ∧
      (solveEig hn (fun _ => 1) V g).1 = -g) := by
  constructor
  · intro n hn eigval V g
    exact Nat.sub_le n _
  · intro n hn V g hV
    have hVVt : V * Vᵀ = 1 := Matrix.mul_eq_one_comm.mp hV
    constructor
    · show n - eigDeflate hn (fun _ => 1) = n
      rw [eigDeflate_ones hn]
      omega
    · funext r
      show (Finset.univ.sum fun j : Fin n =>
          if eigDeflate hn (fun _ => 1) ≤ (j : ℕ) then
            (1 / (1 : ℚ)) * (((fun k => V k j) ⬝ᵥ (-g)) * V r j)
          else 0) = (-g) r
      rw [eigDeflate_ones hn]
      simp only [Nat.zero_le, if_true, one_div_one, one_mul]
      have hstep : ∀ j : Fin n,
          ((fun k => V k j) ⬝ᵥ (-g)) * V r j =
          Finset.univ.sum fun k : Fin n => V r j * V k j * (-g) k := by
        intro j
        simp only [Matrix.dotProduct]
        rw [Finset.sum_mul]
        refine Finset.sum_congr rfl fun k _ => ?_
        ring
      calc (Finset.univ.sum fun j : Fin n => ((fun k => V k j) ⬝ᵥ (-g)) * V r j)
          = Finset.univ.sum fun j : Fin n =>
              Finset.univ.sum fun k : Fin n => V r j * V k j * (-g) k := by
            exact Finset.sum_congr rfl fun j _ => hstep j
        _ = Finset.univ.sum fun k : Fin n =>
              Finset.univ.sum fun j : Fin n => V r j * V k j * (-g) k :=
            Finset.sum_comm
        _ = Finset.univ.sum fun k : Fin n => (V * Vᵀ) r k * (-g) k := by
            refine Finset.sum_congr rfl fun k _ => ?_
            rw [Matrix.mul_apply]
            rw [Finset.sum_mul]
            refine Finset.sum_congr rfl fun j _ => ?_
            rw [Matrix.transpose_apply]
        _ = ((V * Vᵀ) *ᵥ (-g)) r := rfl
        _ = (-g) r := by rw [hVVt, Matrix.one_mulVec]

/-- C8 witness: the theorem applied at `n = 2`, a concrete eigenvalue list,
`V = 1` and `g = (3, 4)`. -/
theorem eig_rank_bound_and_identity_witness :
    (solveEig (by norm_num) (fun _ : Fin 2 => 1) (1 : Mat 2 2)
      (fun i => if i = 0 then 3 else 4)).2 = 2 ∧
    (solveEig (by norm_num) (fun _ : Fin 2 => 1) (1 : Mat 2 2)
      (fun i => if i = 0 then 3 else 4)).1 =
      -(fun i => if i = 0 then 3 else 4) := by
  have h := eig_rank_bound_and_identity.2 2 (by norm_num) (1 : Mat 2 2)
    (fun i => if i = 0 then 3 else 4) (by with_unfolding_all decide)
  exact h

theorem Flt.gtb_eq_false_of_leb : ∀ {a b : Flt}, Flt.leb a b = true → Flt.gtb a b = false
  | .nan, _, h => by simp [Flt.leb] at h
  | .inf _, .nan, h => by simp [Flt.leb] at h
  | .inf true, .inf true, _ => rfl
  | .inf true, .inf false, h => by simp [Flt.leb] at h
  | .inf true, .fin _, h => by simp [Flt.leb] at h
  | .inf false, .inf true, _ => rfl
  | .inf false, .inf false, _ => rfl
  | .inf false, .fin _, _ => rfl
  | .fin _, .nan, h => by simp [Flt.leb] at h
  | .fin _, .inf true, _ => rfl
  | .fin _, .inf false, h => by simp [Flt.leb] at h
  | .fin a, .fin b, h => by
      simp only [Flt.leb, decide_eq_true_eq] at h
      simp only [Flt.gtb, decide_eq_false_iff_not, not_lt]
      exact h

theorem bfgsDelta_fail {n m : ℕ} (s : OptState n m) (nh : ℚ)
    (hf : (bfgsDelta s nh).2 = false) :
    (bfgsDelta s nh).1 = mintrustResult s := by
  unfold bfgsDelta at hf ⊢
  by_cases h1 : s.QNew < (s.Q : WithTop ℚ)
  · rw [if_pos h1] at hf ⊢
    by_cases h2 : bfgsRho s > 3 / 4
    · rw [if_pos h2] at hf
      simp at hf
    · rw [if_neg h2] at hf ⊢
      by_cases h3 : bfgsRho s < 1 / 4
      · rw [if_pos h3] at hf ⊢
        unfold checkStep at hf ⊢
        by_cases h4 : ¬ (s.delta / 2 >
            ({ s with delta := s.delta / 2 } : OptState n m).ctrl.minStep *
              (norm2 ({ s with delta := s.delta / 2 } : OptState n m).x +
                ({ s with delta := s.delta / 2 } : OptState n m).ctrl.minStep))
        · rw [if_pos h4]
          rfl
        · rw [if_neg h4] at hf
          simp at hf
      · rw [if_neg h3] at hf
        simp at hf
  · rw [if_neg h1] at hf ⊢
    unfold checkStep at hf ⊢
    by_cases h4 : ¬ (s.delta / 2 >
        ({ s with delta := s.delta / 2 } : OptState n m).ctrl.minStep *
          (norm2 ({ s with delta := s.delta / 2 } : OptState n m).x +
            ({ s with delta := s.delta / 2 } : OptState n m).ctrl.minStep))
    · rw [if_pos h4]
      rfl
    · rw [if_neg h4] at hf
      simp at hf

theorem mintrust_stepEval2 {n m : ℕ} (s : OptState n m) (ng nh : ℚ) (d : Bool)
    (hc : (stepEval2 s ng nh d).2.1 = .mintrust) :
    (stepEval2 s ng nh d).1 = mintrustResult s := by
  unfold stepEval2 at hc ⊢
  split at hc
  · split at hc
    · rename_i harm hcond
      rw [if_pos hcond]
      exact bfgsDelta_fail s nh hcond
    · rw [exit_stepFinish] at hc
      cases d <;> simp at hc
  · split at hc
    · rw [exit_stepFinish] at hc
      cases d <;> simp at hc
    · rw [exit_stepFinish] at hc
      cases d <;> simp at hc

theorem x_evalPhase {n m : ℕ} (obj : Objective n m) (s : OptState n m) (d : Bool) :
    (evalPhase obj s d).x = s.x := by
  unfold evalPhase; split <;> rfl

theorem x_gnewPhase {n m : ℕ} (s : OptState n m) (c : Bool) :
    (gnewPhase s c).x = s.x := by
  unfold gnewPhase; split <;> rfl

theorem x_preEval {n m : ℕ} (obj : Objective n m) (s : OptState n m) (d : Bool) :
    (preEval obj s d).x = s.x := by
  unfold preEval; rw [x_gnewPhase, x_evalPhase]

theorem x_clipState {n m : ℕ} (s : OptState n m) (nh : ℚ) :
    (clipState s nh).x = s.x := by
  unfold clipState; split <;> rfl

theorem accepted_preEval {n m : ℕ} (obj : Objective n m) (s : OptState n m) (d : Bool) :
    (preEval obj s d).state.stepAccepted = s.state.stepAccepted := by
  rw [state_preEval]

theorem delta_modState {n m : ℕ} (s : OptState n m) : (modState s).delta = s.delta := rfl

theorem delta_invState {n m : ℕ} (s : OptState n m) : (invState s).delta = s.delta := rfl

theorem delta_validState {n m : ℕ} (s : OptState n m) : (validState s).delta = s.delta := rfl

theorem delta_clipState {n m : ℕ} (s : OptState n m) (nh : ℚ) :
    (clipState s nh).delta = s.delta := by
  unfold clipState; split <;> rfl

theorem x_modState {n m : ℕ} (s : OptState n m) : (modState s).x = s.x := rfl

theorem x_invState {n m : ℕ} (s : OptState n m) : (invState s).x = s.x := rfl

theorem x_validState {n m : ℕ} (s : OptState n m) : (validState s).x = s.x := rfl

theorem mintrustResult_props {n m : ℕ} (t s : OptState n m)
    (hx : t.x = s.x) (hB : t.B = s.B) (hm : t.method = s.method)
    (ha : t.state.stepAccepted = s.state.stepAccepted) (hd : t.delta = s.delta) :
    (mintrustResult t).state.failureMintrust = true ∧
    (mintrustResult t).x = s.x ∧ (mintrustResult t).B = s.B ∧
    (mintrustResult t).method = s.method ∧
    (mintrustResult t).state.stepAccepted = s.state.stepAccepted ∧
    (mintrustResult t).delta = s.delta / 2 := by
  refine ⟨rfl, hx, hB, hm, ?_, ?_⟩
  · show t.state.stepAccepted = s.state.stepAccepted
    exact ha
  · show t.delta / 2 = s.delta / 2
    rw [hd]

/-- Early return through the trust-radius guard: `FAILURE_MINTRUST` is set,
`delta` is the halved value, and nothing else of the carried state (here:
`x`, `B`, `method`, `STEP_ACCEPTED`) has been committed. -/
theorem mintrust_step {n m : ℕ} (obj : Objective n m) (solve : LinSolver n)
    (s : OptState n m) (hc : (stepTrace obj solve s).2.1 = .mintrust) :
    (step obj solve s).state.failureMintrust = true ∧
    (step obj solve s).x = s.x ∧ (step obj solve s).B = s.B ∧
    (step obj solve s).method = s.method ∧
    (step obj solve s).state.stepAccepted = s.state.stepAccepted ∧
    (step obj solve s).delta = s.delta / 2 := by
  have hTs : (vetInput obj (clipState (solvedState solve s)
      (norm2 (solvedState solve s).h))).state = s.state :=
    flags_vetInput_chain obj solve s
  have hTx : (vetInput obj (clipState (solvedState solve s)
      (norm2 (solvedState solve s).h))).x = s.x := by
    rw [show (vetInput obj (clipState (solvedState solve s)
      (norm2 (solvedState solve s).h))).x = (clipState (solvedState solve s)
      (norm2 (solvedState solve s).h)).x from rfl, x_clipState]
    rfl
  have hTB : (vetInput obj (clipState (solvedState solve s)
      (norm2 (solvedState solve s).h))).B = s.B := by
    rw [B_vetInput, B_clipState, B_solvedState]
  have hTm : (vetInput obj (clipState (solvedState solve s)
      (norm2 (solvedState solve s).h))).method = s.method := by
    rw [method_vetInput, method_clipState, method_solvedState]
  have hTd : (vetInput obj (clipState (solvedState solve s)
      (norm2 (solvedState solve s).h))).delta = s.delta := by
    rw [show (vetInput obj (clipState (solvedState solve s)
      (norm2 (solvedState solve s).h))).delta = (clipState (solvedState solve s)
      (norm2 (solvedState solve s).h)).delta from rfl, delta_clipState]
    rfl
  simp only [step]
  unfold stepTrace at hc ⊢
  split at hc
  · simp at hc
  · rw [if_neg (by assumption)]
    rcases hk : (vetVerdict obj (clipState (solvedState solve s)
        (norm2 (solvedState solve s).h))).1 with _ | _ | _ <;> rw [hk] at hc
    · rw [vetPhase_INVALID] at hc ⊢
      unfold stepEval at hc ⊢
      rw [mintrust_stepEval2 _ _ _ _ hc]
      refine mintrustResult_props _ _ ?_ ?_ ?_ ?_ ?_
      · rw [x_preEval, x_invState, hTx]
      · rw [B_preEval, B_invState, hTB]
      · rw [method_preEval, method_invState, hTm]
      · rw [accepted_preEval, accepted_invState]
        rw [hTs]
      · rw [delta_preEval, delta_invState, hTd]
    · rw [vetPhase_VALID] at hc ⊢
      unfold stepEval at hc ⊢
      rw [mintrust_stepEval2 _ _ _ _ hc]
      refine mintrustResult_props _ _ ?_ ?_ ?_ ?_ ?_
      · rw [x_preEval, x_validState, hTx]
      · rw [B_preEval, B_validState, hTB]
      · rw [method_preEval, method_validState, hTm]
      · rw [accepted_preEval, accepted_validState]
        rw [hTs]
      · rw [delta_preEval, delta_validState, hTd]
    · rw [vetPhase_MODIFIED] at hc ⊢
      split at hc
      · simp at hc
      · rw [if_neg (by assumption)]
        unfold stepEval at hc ⊢
        rw [mintrust_stepEval2 _ _ _ _ hc]
        refine mintrustResult_props _ _ ?_ ?_ ?_ ?_ ?_
        · rw [x_preEval, x_modState, hTx]
        · rw [B_preEval, B_modState, hTB]
        · rw [method_preEval, method_modState, hTm]
        · rw [accepted_preEval, accepted_modState]
          rw [hTs]
        · rw [delta_preEval, delta_modState, hTd]

theorem minstep_guard_step {n m : ℕ} (obj : Objective n m) (solve : LinSolver n)
    (s : OptState n m)
    (hg : ¬ (norm2 (solvedState solve s).h >
      s.ctrl.minStep * (norm2 s.x + s.ctrl.minStep))) :
    step obj solve s = { solvedState solve s with
      state := orFlag (solvedState solve s).state .FAILURE_MINSTEP } := by
  simp only [step]
  unfold stepTrace
  have hcs : checkStep (solvedState solve s) (norm2 (solvedState solve s).h)
      .FAILURE_MINSTEP
      = ({ solvedState solve s with
          state := orFlag (solvedState solve s).state .FAILURE_MINSTEP }, false) := by
    unfold checkStep
    have hg' : ¬ (norm2 (solvedState solve s).h >
        (solvedState solve s).ctrl.minStep *
          (norm2 (solvedState solve s).x + (solvedState solve s).ctrl.minStep)) := hg
    rw [if_pos hg']
  rw [hcs]
  rfl

/-- C9: the minimum-step and minimum-trust guards use NaN-safe polarity.
(i) `checkStep` is the literal `!(stepNorm > minStep*(||x|| + minStep))`
test: on IEEE-style scalars, whenever the tested quantity is NaN **or** is
`<=` the floor, the guard sets the failure bit and reports failure — a NaN
step norm always fails rather than proceeding.  (ii) In the engine, a failing
first guard makes `step()` return immediately with only `FAILURE_MINSTEP`
set.  (iii) A failing trust-radius guard makes `step()` return immediately
with `FAILURE_MINTRUST` set and the halved `delta`, committing nothing
(`x`, `B`, `method`, `STEP_ACCEPTED` untouched). -/
theorem nan_safe_guards :
    (∀ (flags : StateFlags) (minStep xnorm stepNorm : Flt) (bad : TermFlag),
      stepNorm = .nan ∨
        Flt.leb stepNorm (Flt.mul minStep (Flt.add xnorm minStep)) = true →
      checkStepF flags minStep xnorm stepNorm bad = (orFlag flags bad, false)) ∧
    (∀ (n m : ℕ) (obj : Objective n m) (solve : LinSolver n) (s : OptState n m),
      ¬ (norm2 (solvedState solve s).h >
        s.ctrl.minStep * (norm2 s.x + s.ctrl.minStep)) →
      step obj solve s = { solvedState solve s with
        state := orFlag (solvedState solve s).state .FAILURE_MINSTEP }) ∧
    (∀ (n m : ℕ) (obj : Objective n m) (solve : LinSolver n) (s : OptState n m),
      (stepTrace obj solve s).2.1 = .mintrust →
      (step obj solve s).state.failureMintrust = true ∧
      (step obj solve s).x = s.x ∧ (step obj solve s).B = s.B ∧
      (step obj solve s).method = s.method ∧
      (step obj solve s).state.stepAccepted = s.state.stepAccepted ∧
      (step obj solve s).delta = s.delta / 2) := by
  refine ⟨?_, ?_, ?_⟩
  · intro flags minStep xnorm stepNorm bad hbad
    unfold checkStepF
    have hgt : Flt.gtb stepNorm (Flt.mul minStep (Flt.add xnorm minStep)) = false := by
      rcases hbad with hnan | hle
      · rw [hnan]
        cases Flt.mul minStep (Flt.add xnorm minStep) <;> rfl
      · exact Flt.gtb_eq_false_of_leb hle
    rw [hgt]
    rfl
  · intro n m obj solve s hg
    exact minstep_guard_step obj solve s hg
  · intro n m obj solve s hc
    exact mintrust_step obj solve s hc

set_option maxRecDepth 100000 in
/-- C9 witness: part (i) at a literal NaN step norm, part (ii) at the
concrete state `sL1` whose next solve fails the guard, part (iii) at the
concrete BFGS state `sS4` whose step dies in the trust-radius guard. -/
theorem nan_safe_guards_witness :
    checkStepF {} (.fin (3 / 4)) (.fin 1) .nan .FAILURE_MINSTEP
      = (orFlag {} .FAILURE_MINSTEP, false) ∧
    step objLine solveExact1 sL1 = { solvedState solveExact1 sL1 with
      state := orFlag (solvedState solveExact1 sL1).state .FAILURE_MINSTEP } ∧
    (step objStuck (solveConst (1 / 4)) sS4).state.failureMintrust = true := by
  refine ⟨nan_safe_guards.1 {} (.fin (3 / 4)) (.fin 1) .nan .FAILURE_MINSTEP
      (Or.inl rfl),
    nan_safe_guards.2.1 1 1 objLine solveExact1 sL1 (by with_unfolding_all decide),
    (nan_safe_guards.2.2 1 1 objStuck (solveConst (1 / 4)) sS4
      (by with_unfolding_all rfl)).1⟩

/-- C3 witness: the theorem applied at the concrete state `sL1`. -/
theorem sticky_terminal_flags_witness :
    stickyMono sL1.state (step objLine solveExact1 sL1).state ∧
    stickyMono sL1.state (run objLine solveExact1 sL1).state :=
  sticky_terminal_flags objLine solveExact1 sL1

end HybridShapelet
